import Mathlib

/-!
# PCA9848 I2C multiplexer driver

A shallow embedding of `src/PCA9848.h` / `src/src/PCA9848.cpp` (the two files
declare the same class with identical bodies).

* `uint8_t` values are natural numbers; every place where the C++ stores a wider
  value into a `uint8_t` is an explicit `% 256`.
* The `TwoWire` class comes from the Arduino core, not from this repository.  It is
  a parameter of the development: an arbitrary deterministic transition system on a
  hardware state `σ`, addressed through bus handles `ι` (what `TwoWire&` / `TwoWire*`
  denote).  Every call the driver makes is also appended to a trace, so that
  "issues no bus call" and "issues exactly these calls" are statements about the trace.
-/

/-- One call of a `TwoWire` member function, as the driver issues it. -/
inductive WireCall where
  | beginTransmission (addr : Nat)
  | write (data : Nat)
  | endTransmission
  | requestFrom (addr : Nat) (quantity : Nat)
  | read
  deriving DecidableEq, Repr

/-- The behaviour of the Arduino `TwoWire` objects: for each member function the
driver uses, its effect on the hardware state and its return value.
`endTransmission` and `requestFrom` return a count/status, `read` returns an `int`. -/
structure TwoWire (ι σ : Type) where
  beginTransmission : ι → Nat → σ → σ
  write : ι → Nat → σ → σ
  endTransmission : ι → σ → Nat × σ
  requestFrom : ι → Nat → Nat → σ → Nat × σ
  read : ι → σ → Int × σ

/-- Everything outside the driver object: the hardware state and the calls made so far
(oldest first). -/
structure Bus (ι σ : Type) where
  hw : σ
  trace : List (ι × WireCall)

namespace Bus

variable {ι σ : Type}

/-- Call `w.beginTransmission(a)`. -/
def beginTransmission (W : TwoWire ι σ) (w : ι) (a : Nat) (e : Bus ι σ) : Bus ι σ :=
  { hw := W.beginTransmission w a e.hw
    trace := e.trace ++ [(w, WireCall.beginTransmission a)] }

/-- Call `w.write(d)`; the driver ignores the returned size. -/
def write (W : TwoWire ι σ) (w : ι) (d : Nat) (e : Bus ι σ) : Bus ι σ :=
  { hw := W.write w d e.hw
    trace := e.trace ++ [(w, WireCall.write d)] }

/-- Call `w.endTransmission()`; yields the returned status. -/
def endTransmission (W : TwoWire ι σ) (w : ι) (e : Bus ι σ) : Nat × Bus ι σ :=
  ((W.endTransmission w e.hw).1,
   { hw := (W.endTransmission w e.hw).2
     trace := e.trace ++ [(w, WireCall.endTransmission)] })

/-- Call `w.requestFrom(a, q)`; yields the returned byte count. -/
def requestFrom (W : TwoWire ι σ) (w : ι) (a q : Nat) (e : Bus ι σ) : Nat × Bus ι σ :=
  ((W.requestFrom w a q e.hw).1,
   { hw := (W.requestFrom w a q e.hw).2
     trace := e.trace ++ [(w, WireCall.requestFrom a q)] })

/-- Call `w.read()`; yields the returned `int`. -/
def read (W : TwoWire ι σ) (w : ι) (e : Bus ι σ) : Int × Bus ι σ :=
  ((W.read w e.hw).1,
   { hw := (W.read w e.hw).2
     trace := e.trace ++ [(w, WireCall.read)] })

end Bus

/-- The data members of `class PCA9848`: `wire_` is `none` for `nullptr`. -/
structure PCA9848 (ι : Type) where
  wire_ : Option ι
  addr_ : Nat
  status_ : Nat
  last_ctrl_ : Nat

namespace PCA9848

variable {ι σ : Type}

/-- `static constexpr uint8_t I2C_ADDR_DEFAULT = 0x70`. -/
def I2C_ADDR_DEFAULT : Nat := 0x70

/-- `static constexpr uint8_t CHANNEL_DISABLED = 0x00`. -/
def CHANNEL_DISABLED : Nat := 0x00

/-- `static constexpr uint8_t CHANNEL_ALL = 0xFF`. -/
def CHANNEL_ALL : Nat := 0xFF

/-- All-ones value of `unsigned int` (32 bits), so that `~x` is `UINT_MAX - x`. -/
def UINT_MAX : Nat := 4294967295

/-- Conversion of an `int` to `uint8_t`. -/
def toUint8 (i : Int) : Nat := (i % 256).toNat

/-- The constructor `PCA9848::PCA9848()`. -/
def new : PCA9848 ι :=
  { wire_ := none, addr_ := I2C_ADDR_DEFAULT, status_ := 4, last_ctrl_ := 0x00 }

/-- `bool attached() const`. -/
def attached (p : PCA9848 ι) : Bool := p.wire_.isSome

/-- `uint8_t address() const`. -/
def address (p : PCA9848 ι) : Nat := p.addr_

/-- `uint8_t getStatus() const`. -/
def getStatus (p : PCA9848 ι) : Nat := p.status_

/-- `bool ok() const`. -/
def ok (p : PCA9848 ι) : Bool := p.status_ == 0

/-- `uint8_t lastCtrl() const`. -/
def lastCtrl (p : PCA9848 ι) : Nat := p.last_ctrl_

/-- `static bool isAddressValid(uint8_t addr)`. -/
def isAddressValid (addr : Nat) : Bool :=
  (decide (addr ≥ 0x58) && decide (addr ≤ 0x5F)) || (decide (addr ≥ 0x70) && decide (addr ≤ 0x77))

/-- `void setAddress(uint8_t addr)`. -/
def setAddress (addr : Nat) (p : PCA9848 ι) : PCA9848 ι :=
  if !isAddressValid addr then
    { p with addr_ := I2C_ADDR_DEFAULT }
  else
    { p with addr_ := addr }

/-- `void setAddress(bool A0, bool A1)` (the two-pin overload). -/
def setAddressPins (A0 A1 : Bool) (p : PCA9848 ι) : PCA9848 ι :=
  let p0 : PCA9848 ι := { p with addr_ := I2C_ADDR_DEFAULT }
  let p1 : PCA9848 ι := if A0 then { p0 with addr_ := (p0.addr_ ||| 0x01) % 256 } else p0
  let p2 : PCA9848 ι := if A1 then { p1 with addr_ := (p1.addr_ ||| 0x02) % 256 } else p1
  p2

/-- `void attach(TwoWire& w, uint8_t addr)`. -/
def attach (w : ι) (addr : Nat) (p : PCA9848 ι) : PCA9848 ι :=
  setAddress addr { p with wire_ := some w }

/-- `bool readControl(uint8_t& out) const`: the reference parameter `out` is passed in and
returned; `status_` is `mutable`, so the object is returned as well. -/
def readControl (W : TwoWire ι σ) (out : Nat) (p : PCA9848 ι) (e : Bus ι σ) :
    Bool × Nat × PCA9848 ι × Bus ι σ :=
  match p.wire_ with
  | none => (false, out, { p with status_ := 4 }, e)
  | some w =>
    let r := e.requestFrom W w p.addr_ 1
    let n := r.1 % 256
    if n ≠ 1 then (false, out, { p with status_ := 4 }, r.2)
    else
      let d := r.2.read W w
      (true, toUint8 d.1, { p with status_ := 0 }, d.2)

/-- `void writeControl(uint8_t ctrl)` (private). -/
def writeControl (W : TwoWire ι σ) (ctrl : Nat) (p : PCA9848 ι) (e : Bus ι σ) :
    PCA9848 ι × Bus ι σ :=
  match p.wire_ with
  | none => ({ p with status_ := 4 }, e)
  | some w =>
    let e1 := e.beginTransmission W w p.addr_
    let e2 := e1.write W w ctrl
    let r := e2.endTransmission W w
    let p1 : PCA9848 ι := { p with status_ := r.1 % 256 }
    if p1.status_ = 0 then ({ p1 with last_ctrl_ := ctrl }, r.2) else (p1, r.2)

/-- `void enableChannel(uint8_t ch)`; `1u << ch` is an `unsigned int`, the result of
`ctrl |= ...` is stored back into a `uint8_t`. -/
def enableChannel (W : TwoWire ι σ) (ch : Nat) (p : PCA9848 ι) (e : Bus ι σ) :
    PCA9848 ι × Bus ι σ :=
  if ch > 7 then (p, e)
  else
    let r := readControl W 0 p e
    if !r.1 then ({ r.2.2.1 with status_ := 4 }, r.2.2.2)
    else
      let ctrl := (r.2.1 ||| ((1 <<< ch) % (UINT_MAX + 1))) % 256
      writeControl W ctrl r.2.2.1 r.2.2.2

/-- `void disableChannel(uint8_t ch)`; `~(1u << ch)` is the 32-bit complement. -/
def disableChannel (W : TwoWire ι σ) (ch : Nat) (p : PCA9848 ι) (e : Bus ι σ) :
    PCA9848 ι × Bus ι σ :=
  if ch > 7 then (p, e)
  else
    let r := readControl W 0 p e
    if !r.1 then ({ r.2.2.1 with status_ := 4 }, r.2.2.2)
    else
      let ctrl := (r.2.1 &&& (UINT_MAX - (1 <<< ch) % (UINT_MAX + 1))) % 256
      writeControl W ctrl r.2.2.1 r.2.2.2

/-- `void setChannels(uint8_t mask)`. -/
def setChannels (W : TwoWire ι σ) (mask : Nat) (p : PCA9848 ι) (e : Bus ι σ) :
    PCA9848 ι × Bus ι σ :=
  writeControl W mask p e

/-- `void enableChannels(uint8_t mask)`. -/
def enableChannels (W : TwoWire ι σ) (mask : Nat) (p : PCA9848 ι) (e : Bus ι σ) :
    PCA9848 ι × Bus ι σ :=
  let r := readControl W 0 p e
  if !r.1 then ({ r.2.2.1 with status_ := 4 }, r.2.2.2)
  else
    let ctrl := (r.2.1 ||| mask) % 256
    writeControl W ctrl r.2.2.1 r.2.2.2

/-- `void disableChannels(uint8_t mask)`; `mask` is promoted to `int`, so `~mask` is the
two's-complement pattern `UINT_MAX - mask`, and the result is stored into a `uint8_t`. -/
def disableChannels (W : TwoWire ι σ) (mask : Nat) (p : PCA9848 ι) (e : Bus ι σ) :
    PCA9848 ι × Bus ι σ :=
  let r := readControl W 0 p e
  if !r.1 then ({ r.2.2.1 with status_ := 4 }, r.2.2.2)
  else
    let ctrl := (r.2.1 &&& (UINT_MAX - mask)) % 256
    writeControl W ctrl r.2.2.1 r.2.2.2

/-- `void disableAll()`. -/
def disableAll (W : TwoWire ι σ) (p : PCA9848 ι) (e : Bus ι σ) : PCA9848 ι × Bus ι σ :=
  writeControl W CHANNEL_DISABLED p e

/-- `void enableAll()`. -/
def enableAll (W : TwoWire ι σ) (p : PCA9848 ι) (e : Bus ι σ) : PCA9848 ι × Bus ι σ :=
  writeControl W CHANNEL_ALL p e

/-- `uint8_t getChannels() const`. -/
def getChannels (W : TwoWire ι σ) (p : PCA9848 ι) (e : Bus ι σ) :
    Nat × PCA9848 ι × Bus ι σ :=
  let r := readControl W 0 p e
  if !r.1 then (r.2.2.1.last_ctrl_, r.2.2.1, r.2.2.2)
  else (r.2.1, r.2.2.1, r.2.2.2)

/-- `bool isChannelEnabled(uint8_t ch) const`. -/
def isChannelEnabled (W : TwoWire ι σ) (ch : Nat) (p : PCA9848 ι) (e : Bus ι σ) :
    Bool × PCA9848 ι × Bus ι σ :=
  if ch > 7 then (false, p, e)
  else
    let r := getChannels W p e
    (decide ((r.1 &&& ((1 <<< ch) % (UINT_MAX + 1))) ≠ 0), r.2.1, r.2.2)

/-- The loop of `getEnabledChannelCount`: `for (uint8_t i = 0; i < 8; ++i)
if (ctrl & (1u << i)) ++n;`, with `fuel` bounding the number of iterations. -/
def countLoop (ctrl : Nat) : Nat → Nat → Nat → Nat
  | 0, _, n => n
  | fuel + 1, i, n =>
    if i < 8 then
      countLoop ctrl fuel ((i + 1) % 256)
        (if (ctrl &&& ((1 <<< i) % (UINT_MAX + 1))) ≠ 0 then (n + 1) % 256 else n)
    else n

/-- `uint8_t getEnabledChannelCount() const`. -/
def getEnabledChannelCount (W : TwoWire ι σ) (p : PCA9848 ι) (e : Bus ι σ) :
    Nat × PCA9848 ι × Bus ι σ :=
  let r := getChannels W p e
  (countLoop r.1 256 0 0, r.2.1, r.2.2)

/-- One loop of `detect`: `for (uint8_t a = ...; a <= hi && n < max_count; ++a)` with the
probe in its body.  The state is `(n, addrs_out, bus)`; `addrs_out` is `none` for a null
pointer and otherwise the memory it points to, indexed from 0.  `fuel` bounds the number
of iterations. -/
def detectLoop (W : TwoWire ι σ) (w : ι) (max_count hi : Nat) :
    Nat → Nat → Nat × Option (Nat → Nat) × Bus ι σ → Nat × Option (Nat → Nat) × Bus ι σ
  | 0, _, s => s
  | fuel + 1, a, (n, addrs_out, e) =>
    if a ≤ hi ∧ n < max_count then
      let e1 := e.beginTransmission W w a
      let r := e1.endTransmission W w
      if r.1 % 256 = 0 then
        detectLoop W w max_count hi fuel ((a + 1) % 256)
          ((n + 1) % 256, addrs_out.map (fun m i => if i = n then a else m i), r.2)
      else
        detectLoop W w max_count hi fuel ((a + 1) % 256) (n, addrs_out, r.2)
    else (n, addrs_out, e)

/-- `static uint8_t detect(TwoWire& w, uint8_t* addrs_out, uint8_t max_count)`.
A `uint8_t` loop counter takes at most 256 values, hence the fuel. -/
def detect (W : TwoWire ι σ) (w : ι) (addrs_out : Option (Nat → Nat)) (max_count : Nat)
    (e : Bus ι σ) : Nat × Option (Nat → Nat) × Bus ι σ :=
  let s1 := detectLoop W w max_count 0x5F 256 0x58 (0, addrs_out, e)
  detectLoop W w max_count 0x77 256 0x70 s1

/-- The public member functions of `class PCA9848`, with their arguments. -/
inductive Op (ι : Type) where
  | attach (w : ι) (addr : Nat)
  | setAddress (addr : Nat)
  | setAddressPins (A0 A1 : Bool)
  | detect (w : ι) (addrs_out : Option (Nat → Nat)) (max_count : Nat)
  | enableChannel (ch : Nat)
  | disableChannel (ch : Nat)
  | setChannels (mask : Nat)
  | enableChannels (mask : Nat)
  | disableChannels (mask : Nat)
  | disableAll
  | enableAll
  | readControl (out : Nat)
  | getChannels
  | isChannelEnabled (ch : Nat)
  | getEnabledChannelCount
  | attached
  | address
  | getStatus
  | ok
  | lastCtrl
  | printStatus

/-- The effect of one public call on the driver object and the bus; return values are
dropped.  `detect` is static and gets no object; the accessors and `printStatus` (whose
output stream is not part of the state) change nothing. -/
def step (W : TwoWire ι σ) : Op ι → PCA9848 ι × Bus ι σ → PCA9848 ι × Bus ι σ
  | Op.attach w addr, (p, e) => (attach w addr p, e)
  | Op.setAddress addr, (p, e) => (setAddress addr p, e)
  | Op.setAddressPins A0 A1, (p, e) => (setAddressPins A0 A1 p, e)
  | Op.detect w addrs_out max_count, (p, e) => (p, (detect W w addrs_out max_count e).2.2)
  | Op.enableChannel ch, (p, e) => enableChannel W ch p e
  | Op.disableChannel ch, (p, e) => disableChannel W ch p e
  | Op.setChannels mask, (p, e) => setChannels W mask p e
  | Op.enableChannels mask, (p, e) => enableChannels W mask p e
  | Op.disableChannels mask, (p, e) => disableChannels W mask p e
  | Op.disableAll, (p, e) => disableAll W p e
  | Op.enableAll, (p, e) => enableAll W p e
  | Op.readControl out, (p, e) => (readControl W out p e).2.2
  | Op.getChannels, (p, e) => (getChannels W p e).2
  | Op.isChannelEnabled ch, (p, e) => (isChannelEnabled W ch p e).2
  | Op.getEnabledChannelCount, (p, e) => (getEnabledChannelCount W p e).2
  | Op.attached, s => s
  | Op.address, s => s
  | Op.getStatus, s => s
  | Op.ok, s => s
  | Op.lastCtrl, s => s
  | Op.printStatus, s => s

/-- A sequence of public calls, executed in order. -/
def run (W : TwoWire ι σ) (ops : List (Op ι)) (s : PCA9848 ι × Bus ι σ) :
    PCA9848 ι × Bus ι σ :=
  ops.foldl (fun s op => step W op s) s

/-! ### A simulated bus

A test fixture, not part of the driver: I2C devices sit at the addresses `devices`; each
has one 8-bit register.  A transmission to a present device is acknowledged (status 0) and
its last data byte, if any, is stored in the register; a transmission to an absent address
reports status 2 (address NACK).  A read request to a present device delivers the register
content. -/

/-- State of the simulated bus: the transmission being assembled, the register of each
device, and the receive buffer. -/
structure SimState where
  txAddr : Nat
  txBuf : List Nat
  reg : Nat → Nat
  rx : List Nat

/-- The simulated bus with devices at the addresses `devices`. -/
def simWire (devices : List Nat) : TwoWire Unit SimState where
  beginTransmission := fun _ a s => { s with txAddr := a, txBuf := [] }
  write := fun _ d s => { s with txBuf := s.txBuf ++ [d] }
  endTransmission := fun _ s =>
    if s.txAddr ∈ devices then
      (0, match s.txBuf.getLast? with
          | none => s
          | some d => { s with reg := fun a => if a = s.txAddr then d else s.reg a })
    else (2, s)
  requestFrom := fun _ a q s =>
    if a ∈ devices then (q, { s with rx := List.replicate q (s.reg a) })
    else (0, { s with rx := [] })
  read := fun _ s =>
    match s.rx with
    | [] => (-1, s)
    | b :: rest => ((b : Int), { s with rx := rest })

/-- An idle simulated bus: nothing pending, register contents `reg`, no calls made yet. -/
def simBus (reg : Nat → Nat) : Bus Unit SimState :=
  { hw := { txAddr := 0, txBuf := [], reg := reg, rx := [] }, trace := [] }

/-- A second test fixture: a single device that holds `0x5A`, acknowledges every
transmission, and answers only a limited number of read requests; the state is the number
of read requests it will still answer. -/
def fadingWire : TwoWire Unit Nat where
  beginTransmission := fun _ _ s => s
  write := fun _ _ s => s
  endTransmission := fun _ s => (0, s)
  requestFrom := fun _ _ q s => if s = 0 then (0, 0) else (q, s - 1)
  read := fun _ s => (0x5A, s)

/-- A successful write transaction, as an observer of the bus sees it: issued on a bus in
state `e1`, the calls `beginTransmission(addr)`, `write(b)`, `endTransmission()` on `w`
ended with status 0 and left the bus in state `e2`. -/
def GoodWrite (W : TwoWire ι σ) (w : ι) (addr b : Nat) (e1 e2 : Bus ι σ) : Prop :=
  (((e1.beginTransmission W w addr).write W w b).endTransmission W w).1 % 256 = 0 ∧
  e2 = (((e1.beginTransmission W w addr).write W w b).endTransmission W w).2

/-! ### Bus observer

The specification side of "the most recent successful write": an observer that sees only
the calls made on the bus replays them on the hardware and remembers the data byte of the
last write transaction whose `endTransmission` reported status 0. -/

/-- What the observer keeps while replaying the calls: the hardware state, the data byte of
the transmission being assembled (if one was written), and the byte of the last write
transaction that ended with status 0. -/
structure Observer (σ : Type) where
  hw : σ
  pending : Option Nat
  good : Nat

/-- The observer sees one more call.  A transmission that ends with status 0 and carried a
data byte makes that byte the last successfully written one; a zero-length probe, a failed
transmission and the read calls leave it alone. -/
def observe (W : TwoWire ι σ) (o : Observer σ) (c : ι × WireCall) : Observer σ :=
  match c.2 with
  | WireCall.beginTransmission a =>
    { hw := W.beginTransmission c.1 a o.hw, pending := none, good := o.good }
  | WireCall.write d =>
    { hw := W.write c.1 d o.hw, pending := some d, good := o.good }
  | WireCall.endTransmission =>
    { hw := (W.endTransmission c.1 o.hw).2, pending := none,
      good := if (W.endTransmission c.1 o.hw).1 % 256 = 0 then o.pending.getD o.good
              else o.good }
  | WireCall.requestFrom a q =>
    { hw := (W.requestFrom c.1 a q o.hw).2, pending := o.pending, good := o.good }
  | WireCall.read =>
    { hw := (W.read c.1 o.hw).2, pending := o.pending, good := o.good }

/-- The byte of the most recent successful write transaction in a call history that
started on hardware state `hw0`; `0x00` if there is none. -/
def lastGoodWrite (W : TwoWire ι σ) (hw0 : σ) (calls : List (ι × WireCall)) : Nat :=
  (calls.foldl (observe W) { hw := hw0, pending := none, good := 0 }).good

/-- The observer's replay of the history of bus `e` from `hw0` arrives at the hardware
state of `e`, with no transmission open and `g` as the last successfully written byte. -/
def Tracks (W : TwoWire ι σ) (hw0 : σ) (e : Bus ι σ) (g : Nat) : Prop :=
  e.trace.foldl (observe W) { hw := hw0, pending := none, good := 0 } =
    { hw := e.hw, pending := none, good := g }

/-! ### Reference scan

The specification side of `detect`: what it means for the addresses of a list to be probed
once each, in order, and how many of them acknowledge. -/

/-- The scan order of `detect`: `0x58..0x5F`, then `0x70..0x77`. -/
def scanOrder : List Nat := List.range' 0x58 8 ++ List.range' 0x70 8

/-- A zero-length write probe of address `a`: `beginTransmission(a)`, then
`endTransmission()`; the address acknowledges when the status is 0. -/
def probe (W : TwoWire ι σ) (w : ι) (a : Nat) (e : Bus ι σ) : Bool × Bus ι σ :=
  (decide (((e.beginTransmission W w a).endTransmission W w).1 % 256 = 0),
   ((e.beginTransmission W w a).endTransmission W w).2)

/-- Probe every address of the list once, in order, without any cap: the number of
addresses that acknowledged, and the bus afterwards. -/
def specScan (W : TwoWire ι σ) (w : ι) : List Nat → Bus ι σ → Nat × Bus ι σ
  | [], e => (0, e)
  | a :: rest, e =>
    ((if (probe W w a e).1 then 1 else 0) + (specScan W w rest (probe W w a e).2).1,
     (specScan W w rest (probe W w a e).2).2)

/-- The addresses of the list that acknowledge when every address is probed once, in
order, without any cap. -/
def specAcks (W : TwoWire ι σ) (w : ι) : List Nat → Bus ι σ → List Nat
  | [], _ => []
  | a :: rest, e =>
    if (probe W w a e).1 then a :: specAcks W w rest (probe W w a e).2
    else specAcks W w rest (probe W w a e).2

/-- The calls of a zero-length write probe of each address of the list, in order. -/
def probeCalls (w : ι) (l : List Nat) : List (ι × WireCall) :=
  l.flatMap (fun a => [(w, WireCall.beginTransmission a), (w, WireCall.endTransmission)])

/-- Population count of an 8-bit mask: the number of set bits among bits 0..7. -/
def popCount8 (m : Nat) : Nat := ((List.range' 0 8).filter (fun i => m.testBit i)).length

/-! ## Addresses -/

/-- C1: `isAddressValid a` holds exactly for `0x58 ≤ a ≤ 0x5F` or `0x70 ≤ a ≤ 0x77`; it is
false on `0x60..0x6F`, and exactly 16 of the 256 eight-bit values are accepted. -/
theorem isAddressValid_iff_ranges :
    (∀ a : Nat, isAddressValid a = true ↔ (0x58 ≤ a ∧ a ≤ 0x5F) ∨ (0x70 ≤ a ∧ a ≤ 0x77)) ∧
    (∀ a : Nat, 0x60 ≤ a → a ≤ 0x6F → isAddressValid a = false) ∧
    ((List.range 256).filter isAddressValid).length = 16 := by
  refine ⟨fun a => by simp [isAddressValid], fun a h1 h2 => ?_, by decide⟩
  simp only [isAddressValid, Bool.or_eq_false_iff, Bool.and_eq_false_iff, decide_eq_false_iff_not]
  omega

/-- C2: `setAddress(addr)` stores `addr` when it is valid and `0x70` otherwise; status, last
control value and bus binding are unchanged, and the bus is not touched. -/
theorem setAddress_stores_valid_or_default (W : TwoWire ι σ) (addr : Nat) (p : PCA9848 ι)
    (e : Bus ι σ) :
    (setAddress addr p).addr_ = (if isAddressValid addr then addr else 0x70) ∧
    (setAddress addr p).status_ = p.status_ ∧
    (setAddress addr p).last_ctrl_ = p.last_ctrl_ ∧
    (setAddress addr p).wire_ = p.wire_ ∧
    (step W (Op.setAddress addr) (p, e)).2 = e := by
  unfold setAddress
  cases h : isAddressValid addr <;> simp [step, I2C_ADDR_DEFAULT]

/-- C3: whatever was stored before, `setAddress(A0, A1)` stores
`0x70 | (A0 ? 1 : 0) | (A1 ? 2 : 0)`, i.e. `0x70`, `0x71`, `0x72` or `0x73`. -/
theorem setAddressPins_address (p : PCA9848 ι) :
    (∀ A0 A1 : Bool, (setAddressPins A0 A1 p).addr_ =
      0x70 ||| (if A0 then 1 else 0) ||| (if A1 then 2 else 0)) ∧
    (setAddressPins true false p).addr_ = 0x71 ∧
    (setAddressPins false true p).addr_ = 0x72 ∧
    (setAddressPins true true p).addr_ = 0x73 ∧
    (setAddressPins false false p).addr_ = 0x70 := by
  refine ⟨fun A0 A1 => ?_, ?_, ?_, ?_, ?_⟩
  · cases A0 <;> cases A1 <;> simp [setAddressPins, I2C_ADDR_DEFAULT]
  all_goals simp [setAddressPins, I2C_ADDR_DEFAULT]

/-! ## The address invariant -/

theorem readControl_addr (W : TwoWire ι σ) (out : Nat) (p : PCA9848 ι) (e : Bus ι σ) :
    (readControl W out p e).2.2.1.addr_ = p.addr_ := by
  unfold readControl
  cases p.wire_ with
  | none => rfl
  | some w => dsimp only; split <;> rfl

theorem writeControl_addr (W : TwoWire ι σ) (ctrl : Nat) (p : PCA9848 ι) (e : Bus ι σ) :
    (writeControl W ctrl p e).1.addr_ = p.addr_ := by
  unfold writeControl
  cases p.wire_ with
  | none => rfl
  | some w => dsimp only; split <;> rfl

theorem enableChannel_addr (W : TwoWire ι σ) (ch : Nat) (p : PCA9848 ι) (e : Bus ι σ) :
    (enableChannel W ch p e).1.addr_ = p.addr_ := by
  unfold enableChannel
  split
  · rfl
  · dsimp only
    split
    · exact readControl_addr W 0 p e
    · rw [writeControl_addr, readControl_addr]

theorem disableChannel_addr (W : TwoWire ι σ) (ch : Nat) (p : PCA9848 ι) (e : Bus ι σ) :
    (disableChannel W ch p e).1.addr_ = p.addr_ := by
  unfold disableChannel
  split
  · rfl
  · dsimp only
    split
    · exact readControl_addr W 0 p e
    · rw [writeControl_addr, readControl_addr]

theorem enableChannels_addr (W : TwoWire ι σ) (mask : Nat) (p : PCA9848 ι) (e : Bus ι σ) :
    (enableChannels W mask p e).1.addr_ = p.addr_ := by
  unfold enableChannels
  dsimp only
  split
  · exact readControl_addr W 0 p e
  · rw [writeControl_addr, readControl_addr]

theorem disableChannels_addr (W : TwoWire ι σ) (mask : Nat) (p : PCA9848 ι) (e : Bus ι σ) :
    (disableChannels W mask p e).1.addr_ = p.addr_ := by
  unfold disableChannels
  dsimp only
  split
  · exact readControl_addr W 0 p e
  · rw [writeControl_addr, readControl_addr]

theorem getChannels_addr (W : TwoWire ι σ) (p : PCA9848 ι) (e : Bus ι σ) :
    (getChannels W p e).2.1.addr_ = p.addr_ := by
  unfold getChannels
  dsimp only
  split <;> exact readControl_addr W 0 p e

theorem isChannelEnabled_addr (W : TwoWire ι σ) (ch : Nat) (p : PCA9848 ι) (e : Bus ι σ) :
    (isChannelEnabled W ch p e).2.1.addr_ = p.addr_ := by
  unfold isChannelEnabled
  split
  · rfl
  · exact getChannels_addr W p e

theorem setAddress_valid (addr : Nat) (p : PCA9848 ι) :
    isAddressValid (setAddress addr p).addr_ = true := by
  unfold setAddress
  cases h : isAddressValid addr
  · simp [I2C_ADDR_DEFAULT, isAddressValid]
  · simpa using h

theorem setAddressPins_valid (A0 A1 : Bool) (p : PCA9848 ι) :
    isAddressValid (setAddressPins A0 A1 p).addr_ = true := by
  cases A0 <;> cases A1 <;> simp [setAddressPins, I2C_ADDR_DEFAULT, isAddressValid]

theorem step_addr_valid (W : TwoWire ι σ) (op : Op ι) (s : PCA9848 ι × Bus ι σ)
    (h : isAddressValid s.1.addr_ = true) : isAddressValid (step W op s).1.addr_ = true := by
  obtain ⟨p, e⟩ := s
  cases op with
  | attach w addr => exact setAddress_valid addr _
  | setAddress addr => exact setAddress_valid addr p
  | setAddressPins A0 A1 => exact setAddressPins_valid A0 A1 p
  | detect w addrs_out max_count => exact h
  | enableChannel ch => simpa only [step, enableChannel_addr] using h
  | disableChannel ch => simpa only [step, disableChannel_addr] using h
  | setChannels mask => simpa only [step, setChannels, writeControl_addr] using h
  | enableChannels mask => simpa only [step, enableChannels_addr] using h
  | disableChannels mask => simpa only [step, disableChannels_addr] using h
  | disableAll => simpa only [step, disableAll, writeControl_addr] using h
  | enableAll => simpa only [step, enableAll, writeControl_addr] using h
  | readControl out => simpa only [step, readControl_addr] using h
  | getChannels => simpa only [step, getChannels_addr] using h
  | isChannelEnabled ch => simpa only [step, isChannelEnabled_addr] using h
  | getEnabledChannelCount =>
    simpa only [step, getEnabledChannelCount, getChannels_addr] using h
  | attached => exact h
  | address => exact h
  | getStatus => exact h
  | ok => exact h
  | lastCtrl => exact h
  | printStatus => exact h

theorem run_addr_valid (W : TwoWire ι σ) (ops : List (Op ι)) (s : PCA9848 ι × Bus ι σ)
    (h : isAddressValid s.1.addr_ = true) : isAddressValid (run W ops s).1.addr_ = true := by
  induction ops generalizing s with
  | nil => exact h
  | cons op rest ih => exact ih (step W op s) (step_addr_valid W op s h)

/-- C4: in every state reached from a freshly constructed controller by any finite
sequence of public calls, on any bus in any initial state, the stored address is one of
the 16 valid ones. -/
theorem reachable_address_valid (W : TwoWire ι σ) (e : Bus ι σ) (ops : List (Op ι)) :
    isAddressValid (run W ops (new, e)).1.address = true :=
  run_addr_valid W ops (new, e) (by simp [new, I2C_ADDR_DEFAULT, isAddressValid])

/-! ## Read-modify-write -/

theorem toUint8_lt (i : Int) : toUint8 i < 256 := by
  unfold toUint8
  have h1 : 0 ≤ i % 256 := Int.emod_nonneg i (by decide)
  have h2 : i % 256 < 256 := Int.emod_lt_of_pos i (by decide)
  omega

/-- Storing `m | x` into a `uint8_t` loses nothing when both are 8-bit values. -/
theorem or_uint8 (m x : Nat) (hm : m < 256) (hx : x < 256) :
    (m ||| x % (UINT_MAX + 1)) % 256 = m ||| x := by
  have h1 : x % (UINT_MAX + 1) = x := Nat.mod_eq_of_lt (by unfold UINT_MAX; omega)
  have h2 : m ||| x < 2 ^ 8 := Nat.or_lt_two_pow (by omega) (by omega)
  rw [h1]
  exact Nat.mod_eq_of_lt (by omega)

/-- The low 8 bits of `m & ~x`, computed at 32 bits, are `m` and the 8-bit complement
of `x`. -/
theorem and_not_uint8 (m x : Nat) (hm : m < 256) (hx : x < 256) :
    (m &&& (UINT_MAX - x % (UINT_MAX + 1))) % 256 = m &&& (255 - x) := by
  have h1 : x % (UINT_MAX + 1) = x := Nat.mod_eq_of_lt (by unfold UINT_MAX; omega)
  have e32 : UINT_MAX - x = 2 ^ 32 - (x + 1) := by unfold UINT_MAX; omega
  have e8 : 255 - x = 2 ^ 8 - (x + 1) := by omega
  have hx32 : x < 2 ^ 32 := by omega
  have hx8 : x < 2 ^ 8 := by omega
  rw [h1, e32, e8]
  apply Nat.eq_of_testBit_eq
  intro i
  have hpow : (256 : Nat) = 2 ^ 8 := by norm_num
  rw [hpow, Nat.testBit_mod_two_pow, Nat.testBit_and, Nat.testBit_and,
    Nat.testBit_two_pow_sub_succ hx32, Nat.testBit_two_pow_sub_succ hx8]
  by_cases hi : i < 8
  · have hi32 : i < 32 := by omega
    simp [hi, hi32]
  · have hmi : m.testBit i = false := by
      apply Nat.testBit_lt_two_pow
      calc m < 2 ^ 8 := by omega
        _ ≤ 2 ^ i := Nat.pow_le_pow_right (by decide) (by omega)
    simp [hi, hmi]

theorem shiftLeft_one_lt (ch : Nat) (hch : ch ≤ 7) : 1 <<< ch < 256 := by
  rw [Nat.one_shiftLeft]
  calc 2 ^ ch ≤ 2 ^ 7 := Nat.pow_le_pow_right (by decide) hch
    _ < 256 := by norm_num

/-- A successful read on an attached controller: the request reported one byte, and the
calls were `requestFrom(addr_, 1)` then `read()`. -/
theorem readControl_success (W : TwoWire ι σ) (out : Nat) (p : PCA9848 ι) (e : Bus ι σ)
    (h : (readControl W out p e).1 = true) :
    ∃ w, p.wire_ = some w ∧ (W.requestFrom w p.addr_ 1 e.hw).1 % 256 = 1 ∧
      (readControl W out p e).2.1 < 256 ∧
      (readControl W out p e).2.2.1 = { p with status_ := 0 } ∧
      (readControl W out p e).2.2.2.trace =
        e.trace ++ [(w, WireCall.requestFrom p.addr_ 1), (w, WireCall.read)] := by
  unfold readControl at h ⊢
  cases hw : p.wire_ with
  | none => simp [hw] at h
  | some w =>
    refine ⟨w, rfl, ?_⟩
    simp only [hw] at h ⊢
    by_cases hn : (W.requestFrom w p.addr_ 1 e.hw).1 % 256 = 1
    · simp [Bus.requestFrom, Bus.read, hn, toUint8_lt]
    · simp [Bus.requestFrom, hn] at h

/-- A failed read: the controller is unattached and nothing was called, or the request
reported a count other than one and only `requestFrom(addr_, 1)` was called.  Only
`status_` changes, to 4, and `out` is left alone. -/
theorem readControl_failure (W : TwoWire ι σ) (out : Nat) (p : PCA9848 ι) (e : Bus ι σ)
    (h : p.wire_ = none ∨ ∃ w, p.wire_ = some w ∧ (W.requestFrom w p.addr_ 1 e.hw).1 % 256 ≠ 1) :
    (readControl W out p e).1 = false ∧
    (readControl W out p e).2.1 = out ∧
    (readControl W out p e).2.2.1 = { p with status_ := 4 } ∧
    (readControl W out p e).2.2.2.trace = e.trace ++
      (match p.wire_ with
       | none => []
       | some w => [(w, WireCall.requestFrom p.addr_ 1)]) := by
  unfold readControl
  rcases h with h | ⟨w, hw, hn⟩
  · simp [h]
  · simp [hw, Bus.requestFrom, hn]

theorem writeControl_trace (W : TwoWire ι σ) (ctrl : Nat) (p : PCA9848 ι) (e : Bus ι σ)
    (w : ι) (hw : p.wire_ = some w) :
    (writeControl W ctrl p e).2.trace = e.trace ++
      [(w, WireCall.beginTransmission p.addr_), (w, WireCall.write ctrl),
       (w, WireCall.endTransmission)] := by
  unfold writeControl
  simp only [hw]
  split <;> simp [Bus.endTransmission, Bus.write, Bus.beginTransmission]

/-- C5: on an attached controller, for `ch ≤ 7`, when the read step succeeds with mask `m`,
`enableChannel(ch)` issues the read and then exactly one transaction to the target address
carrying the byte `m | (1 << ch)`, and `disableChannel(ch)` one carrying `m & ~(1 << ch)`
(8-bit complement). -/
theorem enableChannel_disableChannel_write (W : TwoWire ι σ) (w : ι) (p : PCA9848 ι)
    (e : Bus ι σ) (ch m : Nat) (hw : p.wire_ = some w) (hch : ch ≤ 7)
    (hr : (readControl W 0 p e).1 = true) (hm : (readControl W 0 p e).2.1 = m) :
    (enableChannel W ch p e).2.trace = e.trace ++
      [(w, WireCall.requestFrom p.address 1), (w, WireCall.read),
       (w, WireCall.beginTransmission p.address), (w, WireCall.write (m ||| (1 <<< ch))),
       (w, WireCall.endTransmission)] ∧
    (disableChannel W ch p e).2.trace = e.trace ++
      [(w, WireCall.requestFrom p.address 1), (w, WireCall.read),
       (w, WireCall.beginTransmission p.address),
       (w, WireCall.write (m &&& (255 - (1 <<< ch)))),
       (w, WireCall.endTransmission)] := by
  obtain ⟨w1, hw1, -, hlt, hp, htr⟩ := readControl_success W 0 p e hr
  have hww : w1 = w := by rw [hw] at hw1; exact (Option.some.inj hw1).symm
  subst hww
  rw [hm] at hlt
  have hsh := shiftLeft_one_lt ch hch
  have hwr : (readControl W 0 p e).2.2.1.wire_ = some w1 := by rw [hp]; exact hw
  have hch7 : ¬ ch > 7 := by omega
  constructor
  · unfold enableChannel
    rw [if_neg hch7]
    simp only [hr, hm, or_uint8 m _ hlt hsh, Bool.not_true, Bool.false_eq_true, if_false]
    rw [writeControl_trace W _ _ _ w1 hwr, htr, readControl_addr]
    simp [address]
  · unfold disableChannel
    rw [if_neg hch7]
    simp only [hr, hm, and_not_uint8 m _ hlt hsh, Bool.not_true, Bool.false_eq_true, if_false]
    rw [writeControl_trace W _ _ _ w1 hwr, htr, readControl_addr]
    simp [address]

/-- The spec's examples for C5 on the simulated bus: `enableChannel(3)` with the device at
mask `0x01` writes `0x09`; `disableChannel(0)` with the device at mask `0x09` writes
`0x08`. -/
theorem enableChannel_disableChannel_write_witness :
    (readControl (simWire [0x70]) 0 (attach () 0x70 new) (simBus (fun _ => 0x09))).1 = true ∧
    (enableChannel (simWire [0x70]) 3 (attach () 0x70 new) (simBus (fun _ => 0x01))).2.trace =
      [((), WireCall.requestFrom 0x70 1), ((), WireCall.read),
       ((), WireCall.beginTransmission 0x70), ((), WireCall.write 0x09),
       ((), WireCall.endTransmission)] ∧
    (disableChannel (simWire [0x70]) 0 (attach () 0x70 new) (simBus (fun _ => 0x09))).2.trace =
      [((), WireCall.requestFrom 0x70 1), ((), WireCall.read),
       ((), WireCall.beginTransmission 0x70), ((), WireCall.write 0x08),
       ((), WireCall.endTransmission)] :=
  ⟨by decide,
   (enableChannel_disableChannel_write (simWire [0x70]) () (attach () 0x70 new)
      (simBus (fun _ => 0x01)) 3 0x01 (by decide) (by decide) (by decide) (by decide)).1,
   (enableChannel_disableChannel_write (simWire [0x70]) () (attach () 0x70 new)
      (simBus (fun _ => 0x09)) 0 0x09 (by decide) (by decide) (by decide) (by decide)).2⟩

/-- C6: on an attached controller, for an 8-bit `mask`, when the read step succeeds with
register value `m`, `enableChannels(mask)` issues the read and then exactly one transaction
to the target address carrying `m | mask`, and `disableChannels(mask)` one carrying
`m & ~mask` (8-bit complement). -/
theorem enableChannels_disableChannels_write (W : TwoWire ι σ) (w : ι) (p : PCA9848 ι)
    (e : Bus ι σ) (mask m : Nat) (hw : p.wire_ = some w) (hmask : mask < 256)
    (hr : (readControl W 0 p e).1 = true) (hm : (readControl W 0 p e).2.1 = m) :
    (enableChannels W mask p e).2.trace = e.trace ++
      [(w, WireCall.requestFrom p.address 1), (w, WireCall.read),
       (w, WireCall.beginTransmission p.address), (w, WireCall.write (m ||| mask)),
       (w, WireCall.endTransmission)] ∧
    (disableChannels W mask p e).2.trace = e.trace ++
      [(w, WireCall.requestFrom p.address 1), (w, WireCall.read),
       (w, WireCall.beginTransmission p.address), (w, WireCall.write (m &&& (255 - mask))),
       (w, WireCall.endTransmission)] := by
  obtain ⟨w1, hw1, -, hlt, hp, htr⟩ := readControl_success W 0 p e hr
  have hww : w1 = w := by rw [hw] at hw1; exact (Option.some.inj hw1).symm
  subst hww
  rw [hm] at hlt
  have hwr : (readControl W 0 p e).2.2.1.wire_ = some w1 := by rw [hp]; exact hw
  have hor : (m ||| mask) % 256 = m ||| mask := by
    have h := or_uint8 m mask hlt hmask
    rwa [Nat.mod_eq_of_lt (show mask < UINT_MAX + 1 by unfold UINT_MAX; omega)] at h
  have hand : (m &&& (UINT_MAX - mask)) % 256 = m &&& (255 - mask) := by
    have h := and_not_uint8 m mask hlt hmask
    rwa [Nat.mod_eq_of_lt (show mask < UINT_MAX + 1 by unfold UINT_MAX; omega)] at h
  constructor
  · unfold enableChannels
    simp only [hr, hm, hor, Bool.not_true, Bool.false_eq_true, if_false]
    rw [writeControl_trace W _ _ _ w1 hwr, htr, readControl_addr]
    simp [address]
  · unfold disableChannels
    simp only [hr, hm, hand, Bool.not_true, Bool.false_eq_true, if_false]
    rw [writeControl_trace W _ _ _ w1 hwr, htr, readControl_addr]
    simp [address]

/-- C6 on the simulated bus: with the device at `0x72` holding `0x0F`, `enableChannels(0x30)`
writes `0x3F` and `disableChannels(0x05)` writes `0x0A`. -/
theorem enableChannels_disableChannels_write_witness :
    (readControl (simWire [0x72]) 0 (attach () 0x72 new) (simBus (fun _ => 0x0F))).1 = true ∧
    (enableChannels (simWire [0x72]) 0x30 (attach () 0x72 new) (simBus (fun _ => 0x0F))).2.trace =
      [((), WireCall.requestFrom 0x72 1), ((), WireCall.read),
       ((), WireCall.beginTransmission 0x72), ((), WireCall.write 0x3F),
       ((), WireCall.endTransmission)] ∧
    (disableChannels (simWire [0x72]) 0x05 (attach () 0x72 new) (simBus (fun _ => 0x0F))).2.trace =
      [((), WireCall.requestFrom 0x72 1), ((), WireCall.read),
       ((), WireCall.beginTransmission 0x72), ((), WireCall.write 0x0A),
       ((), WireCall.endTransmission)] :=
  ⟨by decide,
   (enableChannels_disableChannels_write (simWire [0x72]) () (attach () 0x72 new)
      (simBus (fun _ => 0x0F)) 0x30 0x0F (by decide) (by decide) (by decide) (by decide)).1,
   (enableChannels_disableChannels_write (simWire [0x72]) () (attach () 0x72 new)
      (simBus (fun _ => 0x0F)) 0x05 0x0F (by decide) (by decide) (by decide) (by decide)).2⟩

/-- C7: for `ch > 7`, attached or not, `enableChannel(ch)` and `disableChannel(ch)` return
at once: the object (address, status, last control value, bus binding) and the bus (state
and call trace) are exactly as before. -/
theorem enableChannel_disableChannel_out_of_range (W : TwoWire ι σ) (p : PCA9848 ι)
    (e : Bus ι σ) (ch : Nat) (hch : ch > 7) :
    enableChannel W ch p e = (p, e) ∧ disableChannel W ch p e = (p, e) := by
  unfold enableChannel disableChannel
  simp [hch]

/-- C7 at `ch = 8`, on an attached and on an unattached controller. -/
theorem enableChannel_disableChannel_out_of_range_witness :
    8 > 7 ∧
    (enableChannel (simWire [0x70]) 8 (attach () 0x70 new) (simBus (fun _ => 0x01)) =
        (attach () 0x70 new, simBus (fun _ => 0x01)) ∧
     disableChannel (simWire [0x70]) 8 (attach () 0x70 new) (simBus (fun _ => 0x01)) =
        (attach () 0x70 new, simBus (fun _ => 0x01))) ∧
    (enableChannel (simWire [0x70]) 8 new (simBus (fun _ => 0x01)) =
        (new, simBus (fun _ => 0x01)) ∧
     disableChannel (simWire [0x70]) 8 new (simBus (fun _ => 0x01)) =
        (new, simBus (fun _ => 0x01))) :=
  ⟨by decide,
   enableChannel_disableChannel_out_of_range (simWire [0x70]) (attach () 0x70 new)
     (simBus (fun _ => 0x01)) 8 (by decide),
   enableChannel_disableChannel_out_of_range (simWire [0x70]) new
     (simBus (fun _ => 0x01)) 8 (by decide)⟩

/-- C8: when the read step fails (no bus attached, or the one-byte request reports a count
other than 1), each of `enableChannel(ch ≤ 7)`, `disableChannel(ch ≤ 7)`,
`enableChannels(mask)` and `disableChannels(mask)` ends in the same state `r`: status 4,
`ok()` false, last control value, address and binding unchanged; the only bus call is
the failed `requestFrom` (none at all when unattached), so no transaction is begun,
written or ended. -/
theorem read_failure_aborts_write (W : TwoWire ι σ) (p : PCA9848 ι) (e : Bus ι σ)
    (ch mask : Nat) (hch : ch ≤ 7)
    (hfail : p.wire_ = none ∨
      ∃ w, p.wire_ = some w ∧ (W.requestFrom w p.addr_ 1 e.hw).1 % 256 ≠ 1) :
    ∃ r : PCA9848 ι × Bus ι σ,
      (enableChannel W ch p e = r ∧ disableChannel W ch p e = r ∧
       enableChannels W mask p e = r ∧ disableChannels W mask p e = r) ∧
      r.1.getStatus = 4 ∧ r.1.ok = false ∧ r.1.lastCtrl = p.lastCtrl ∧
      r.1.address = p.address ∧ r.1.wire_ = p.wire_ ∧
      r.2.trace = e.trace ++
        (match p.wire_ with
         | none => []
         | some w => [(w, WireCall.requestFrom p.address 1)]) := by
  obtain ⟨h1, -, h3, h4⟩ := readControl_failure W 0 p e hfail
  have hch7 : ¬ ch > 7 := by omega
  refine ⟨({ p with status_ := 4 }, (readControl W 0 p e).2.2.2), ⟨?_, ?_, ?_, ?_⟩,
    rfl, rfl, rfl, rfl, rfl, h4⟩
  · unfold enableChannel
    rw [if_neg hch7]
    simp [h1, h3]
  · unfold disableChannel
    rw [if_neg hch7]
    simp [h1, h3]
  · unfold enableChannels
    simp [h1, h3]
  · unfold disableChannels
    simp [h1, h3]

/-- C8 on the simulated bus: the controller is attached at `0x71` but the only device sits
at `0x70`, so the read request reports 0 bytes; `enableChannel(3)` and the other three
operations stop after the request with status 4. -/
theorem read_failure_aborts_write_witness :
    ((simWire [0x70]).requestFrom () 0x71 1 (simBus (fun _ => 0)).hw).1 % 256 ≠ 1 ∧
    ∃ r : PCA9848 Unit × Bus Unit SimState,
      (enableChannel (simWire [0x70]) 3 (attach () 0x71 new) (simBus (fun _ => 0)) = r ∧
       disableChannel (simWire [0x70]) 3 (attach () 0x71 new) (simBus (fun _ => 0)) = r ∧
       enableChannels (simWire [0x70]) 0x0F (attach () 0x71 new) (simBus (fun _ => 0)) = r ∧
       disableChannels (simWire [0x70]) 0x0F (attach () 0x71 new) (simBus (fun _ => 0)) = r) ∧
      r.1.getStatus = 4 ∧ r.1.ok = false ∧ r.1.lastCtrl = 0 ∧
      r.1.address = 0x71 ∧ r.1.wire_ = some () ∧
      r.2.trace = [((), WireCall.requestFrom 0x71 1)] :=
  ⟨by decide,
   read_failure_aborts_write (simWire [0x70]) (attach () 0x71 new) (simBus (fun _ => 0))
     3 0x0F (by decide) (Or.inr ⟨(), rfl, by decide⟩)⟩

/-! ## Write then read back -/

theorem toUint8_natCast (m : Nat) (hm : m < 256) : toUint8 (m : Int) = m := by
  unfold toUint8
  omega

/-- C9: on the simulated bus with a device at the controller's address, for every 8-bit
`m`, `setChannels(m)` succeeds (`ok()`, `lastCtrl() == m`) and a following `getChannels()`
returns `m`, again with `ok()` true and `lastCtrl() == m`. -/
theorem setChannels_getChannels_roundtrip (devices : List Nat) (p : PCA9848 Unit)
    (e : Bus Unit SimState) (m : Nat) (hm : m < 256) (hw : p.wire_ = some ())
    (ha : p.address ∈ devices) :
    ((setChannels (simWire devices) m p e).1.ok = true ∧
     (setChannels (simWire devices) m p e).1.lastCtrl = m) ∧
    (getChannels (simWire devices) (setChannels (simWire devices) m p e).1
      (setChannels (simWire devices) m p e).2).1 = m ∧
    (getChannels (simWire devices) (setChannels (simWire devices) m p e).1
      (setChannels (simWire devices) m p e).2).2.1.ok = true ∧
    (getChannels (simWire devices) (setChannels (simWire devices) m p e).1
      (setChannels (simWire devices) m p e).2).2.1.lastCtrl = m := by
  have ha1 : p.addr_ ∈ devices := ha
  simp [setChannels, getChannels, writeControl, readControl, hw, simWire, ha1,
    Bus.beginTransmission, Bus.write, Bus.endTransmission, Bus.requestFrom, Bus.read,
    ok, lastCtrl, toUint8_natCast m hm]

/-- C9 for the masks `0xFF` and `0x00` of the spec, on a freshly attached controller whose
device initially holds `0x5A`. -/
theorem setChannels_getChannels_roundtrip_witness :
    (getChannels (simWire [0x70]) (setChannels (simWire [0x70]) 0xFF (attach () 0x70 new)
        (simBus (fun _ => 0x5A))).1
      (setChannels (simWire [0x70]) 0xFF (attach () 0x70 new) (simBus (fun _ => 0x5A))).2).1
      = 0xFF ∧
    (getChannels (simWire [0x70]) (setChannels (simWire [0x70]) 0x00 (attach () 0x70 new)
        (simBus (fun _ => 0x5A))).1
      (setChannels (simWire [0x70]) 0x00 (attach () 0x70 new) (simBus (fun _ => 0x5A))).2).1
      = 0x00 :=
  ⟨(setChannels_getChannels_roundtrip [0x70] (attach () 0x70 new) (simBus (fun _ => 0x5A))
      0xFF (by decide) (by decide) (by decide)).2.1,
   (setChannels_getChannels_roundtrip [0x70] (attach () 0x70 new) (simBus (fun _ => 0x5A))
      0x00 (by decide) (by decide) (by decide)).2.1⟩

/-! ## Bus scan -/

theorem scanOrder_eq_valid : scanOrder = (List.range 256).filter isAddressValid := by
  decide

theorem specScan_count_le (W : TwoWire ι σ) (w : ι) (l : List Nat) (e : Bus ι σ) :
    (specScan W w l e).1 ≤ l.length := by
  induction l generalizing e with
  | nil => simp [specScan]
  | cons a rest ih =>
    have h := ih (probe W w a e).2
    simp only [specScan, List.length_cons]
    split <;> omega

theorem specScan_append (W : TwoWire ι σ) (w : ι) (l1 l2 : List Nat) (e : Bus ι σ) :
    specScan W w (l1 ++ l2) e =
      ((specScan W w l1 e).1 + (specScan W w l2 (specScan W w l1 e).2).1,
       (specScan W w l2 (specScan W w l1 e).2).2) := by
  induction l1 generalizing e with
  | nil => simp [specScan]
  | cons a rest ih =>
    show specScan W w (a :: (rest ++ l2)) e = _
    simp only [specScan, ih, Nat.add_assoc]

theorem specScan_range_succ (W : TwoWire ι σ) (w : ι) (a k : Nat) (e : Bus ι σ) :
    specScan W w (List.range' a (k + 1)) e =
      ((if (probe W w a e).1 then 1 else 0) +
          (specScan W w (List.range' (a + 1) k) (probe W w a e).2).1,
       (specScan W w (List.range' (a + 1) k) (probe W w a e).2).2) := by
  simp only [List.range', specScan]

/-- One loop of `detect`, started at address `a` with `k` addresses left up to `hi` and `n`
devices found so far: it ends with `n` plus the acknowledgements among those `k` addresses,
capped at `max_count`; when the cap was not reached, all `k` addresses were probed. -/
theorem detectLoop_count (W : TwoWire ι σ) (w : ι) (max_count hi : Nat) (hhi : hi < 255) :
    ∀ (k fuel a n : Nat) (out : Option (Nat → Nat)) (e : Bus ι σ),
      a + k = hi + 1 → k < fuel → n + k < 256 → n ≤ max_count →
      (detectLoop W w max_count hi fuel a (n, out, e)).1 =
          min max_count (n + (specScan W w (List.range' a k) e).1) ∧
      ((detectLoop W w max_count hi fuel a (n, out, e)).1 < max_count →
        (detectLoop W w max_count hi fuel a (n, out, e)).2.2 =
          (specScan W w (List.range' a k) e).2) := by
  intro k
  induction k with
  | zero =>
    intro fuel a n out e hak hf hn hmc
    obtain ⟨f, rfl⟩ : ∃ f, fuel = f + 1 := ⟨fuel - 1, by omega⟩
    have hc : ¬ (a ≤ hi ∧ n < max_count) := by omega
    have hd : detectLoop W w max_count hi (f + 1) a (n, out, e) = (n, out, e) := by
      simp only [detectLoop, if_neg hc]
    have hs : specScan W w (List.range' a 0) e = (0, e) := by
      simp only [List.range', specScan]
    rw [hd, hs]
    exact ⟨by show n = min max_count (n + 0); omega, fun _ => rfl⟩
  | succ k ih =>
    intro fuel a n out e hak hf hn hmc
    obtain ⟨f, rfl⟩ : ∃ f, fuel = f + 1 := ⟨fuel - 1, by omega⟩
    have ha1 : (a + 1) % 256 = a + 1 := Nat.mod_eq_of_lt (by omega)
    have hn1 : (n + 1) % 256 = n + 1 := Nat.mod_eq_of_lt (by omega)
    rw [specScan_range_succ]
    by_cases hlt : n < max_count
    · have hc : a ≤ hi ∧ n < max_count := ⟨by omega, hlt⟩
      by_cases hack : ((e.beginTransmission W w a).endTransmission W w).1 % 256 = 0
      · have hp : (probe W w a e).1 = true := by simp only [probe, hack, decide_True]
        have hd : detectLoop W w max_count hi (f + 1) a (n, out, e) =
            detectLoop W w max_count hi f (a + 1)
              (n + 1, out.map (fun m i => if i = n then a else m i), (probe W w a e).2) := by
          simp only [detectLoop, if_pos hc, if_pos hack, ha1, hn1, probe]
        obtain ⟨h1, h2⟩ := ih f (a + 1) (n + 1)
          (out.map (fun m i => if i = n then a else m i)) (probe W w a e).2
          (by omega) (by omega) (by omega) (by omega)
        rw [hd, hp]
        refine ⟨?_, h2⟩
        rw [h1, if_pos rfl, Nat.add_assoc]
      · have hp : (probe W w a e).1 = false := by simp only [probe, hack, decide_False]
        have hd : detectLoop W w max_count hi (f + 1) a (n, out, e) =
            detectLoop W w max_count hi f (a + 1) (n, out, (probe W w a e).2) := by
          simp only [detectLoop, if_pos hc, if_neg hack, ha1, probe]
        obtain ⟨h1, h2⟩ := ih f (a + 1) n out (probe W w a e).2
          (by omega) (by omega) (by omega) (by omega)
        rw [hd, hp]
        refine ⟨?_, h2⟩
        rw [h1]
        simp
    · have hc : ¬ (a ≤ hi ∧ n < max_count) := fun h => hlt h.2
      have hd : detectLoop W w max_count hi (f + 1) a (n, out, e) = (n, out, e) := by
        simp only [detectLoop, if_neg hc]
      rw [hd]
      exact ⟨by show n = min max_count _; omega, fun h => absurd h hlt⟩

/-- C10 as the spec states it fails: on the simulated bus with devices at `0x58`, `0x72` and
`0x77`, three of the 16 valid addresses acknowledge a probe, yet `detect` with
`max_count == 0` returns 0 (and probes nothing), and with `max_count == 2` returns 2. -/
theorem detect_count_uncapped_counterexample :
    (specScan (simWire [0x58, 0x72, 0x77]) () scanOrder (simBus (fun _ => 0))).1 = 3 ∧
    (detect (simWire [0x58, 0x72, 0x77]) () none 0 (simBus (fun _ => 0))).1 = 0 ∧
    (detect (simWire [0x58, 0x72, 0x77]) () none 0 (simBus (fun _ => 0))).2.2.trace = [] ∧
    (detect (simWire [0x58, 0x72, 0x77]) () (some (fun _ => 0)) 2 (simBus (fun _ => 0))).1 = 2 := by
  decide

/-- C10, amended: for every bus and every `max_count`, `detect` returns the number of
addresses among the 16 valid ones that acknowledge when probed once each in scan order,
capped at `max_count` (so 0 when `max_count == 0`). -/
theorem detect_count_capped (W : TwoWire ι σ) (w : ι) (addrs_out : Option (Nat → Nat))
    (max_count : Nat) (e : Bus ι σ) :
    (detect W w addrs_out max_count e).1 = min max_count (specScan W w scanOrder e).1 := by
  unfold detect scanOrder
  rw [specScan_append]
  obtain ⟨h1, h2⟩ := detectLoop_count W w max_count 0x5F (by decide) 8 256 0x58 0 addrs_out e
    rfl (by decide) (by decide) (Nat.zero_le _)
  have hc1 := specScan_count_le W w (List.range' 0x58 8) e
  rw [List.length_range'] at hc1
  generalize detectLoop W w max_count 0x5F 256 0x58 (0, addrs_out, e) = s1 at h1 h2 ⊢
  obtain ⟨n1, out1, e1⟩ := s1
  simp only [Nat.zero_add] at h1 h2
  obtain ⟨h3, -⟩ := detectLoop_count W w max_count 0x77 (by decide) 8 256 0x70 n1 out1 e1
    rfl (by decide) (by omega) (by omega)
  rw [h3]
  by_cases hlt : n1 < max_count
  · rw [← h2 hlt]
    omega
  · omega

theorem specScan_trace (W : TwoWire ι σ) (w : ι) (l : List Nat) (e : Bus ι σ) :
    (specScan W w l e).2.trace = e.trace ++ probeCalls w l := by
  induction l generalizing e with
  | nil => simp [specScan, probeCalls]
  | cons a rest ih =>
    simp only [specScan, ih, probeCalls, List.flatMap_cons]
    simp [probe, Bus.endTransmission, Bus.beginTransmission]

/-- When fewer than `max_count` addresses acknowledge, `detect` does probe each of the 16
valid addresses exactly once, in scan order, and nothing else. -/
theorem detect_trace_uncapped (W : TwoWire ι σ) (w : ι) (addrs_out : Option (Nat → Nat))
    (max_count : Nat) (e : Bus ι σ) (h : (specScan W w scanOrder e).1 < max_count) :
    (detect W w addrs_out max_count e).2.2.trace = e.trace ++ probeCalls w scanOrder := by
  rw [← specScan_trace W w scanOrder e]
  unfold detect scanOrder at *
  rw [specScan_append] at h ⊢
  obtain ⟨h1, h2⟩ := detectLoop_count W w max_count 0x5F (by decide) 8 256 0x58 0 addrs_out e
    rfl (by decide) (by decide) (Nat.zero_le _)
  have hc1 := specScan_count_le W w (List.range' 0x58 8) e
  rw [List.length_range'] at hc1
  generalize detectLoop W w max_count 0x5F 256 0x58 (0, addrs_out, e) = s1 at h1 h2 ⊢
  obtain ⟨n1, out1, e1⟩ := s1
  simp only [Nat.zero_add] at h1 h2
  have hn1 : n1 < max_count := by simp only at h; omega
  have he1 := h2 hn1
  simp only at he1
  obtain ⟨h3, h4⟩ := detectLoop_count W w max_count 0x77 (by decide) 8 256 0x70 n1 out1 e1
    rfl (by decide) (by omega) (by omega)
  have hn2 : (detectLoop W w max_count 0x77 256 0x70 (n1, out1, e1)).1 < max_count := by
    rw [h3, he1]
    simp only at h
    omega
  rw [h4 hn2, he1]

/-- C11 fails on the code: on the simulated bus with devices at `0x58`, `0x72` and `0x77`,
`detect` with `max_count == 0` issues no probe at all, and with `max_count == 2` it probes
`0x58..0x5F` and `0x70..0x72` and then stops, so `0x73..0x77` are never probed; only with
`max_count == 4` (more than the three responders) are all 16 addresses probed. -/
theorem detect_probes_stop_at_cap :
    (detect (simWire [0x58, 0x72, 0x77]) () none 0 (simBus (fun _ => 0))).2.2.trace = [] ∧
    (detect (simWire [0x58, 0x72, 0x77]) () (some (fun _ => 0)) 2
        (simBus (fun _ => 0))).2.2.trace =
      probeCalls () [0x58, 0x59, 0x5A, 0x5B, 0x5C, 0x5D, 0x5E, 0x5F, 0x70, 0x71, 0x72] ∧
    (detect (simWire [0x58, 0x72, 0x77]) () (some (fun _ => 0)) 4
        (simBus (fun _ => 0))).2.2.trace = probeCalls () scanOrder ∧
    probeCalls () scanOrder =
      probeCalls () [0x58, 0x59, 0x5A, 0x5B, 0x5C, 0x5D, 0x5E, 0x5F,
                     0x70, 0x71, 0x72, 0x73, 0x74, 0x75, 0x76, 0x77] := by
  decide

/-! ## The output buffer of the scan -/

theorem specScan_count_eq (W : TwoWire ι σ) (w : ι) (l : List Nat) (e : Bus ι σ) :
    (specScan W w l e).1 = (specAcks W w l e).length := by
  induction l generalizing e with
  | nil => simp [specScan, specAcks]
  | cons a rest ih =>
    simp only [specScan, specAcks, ih]
    split <;> simp [Nat.add_comm]

theorem specAcks_append (W : TwoWire ι σ) (w : ι) (l1 l2 : List Nat) (e : Bus ι σ) :
    specAcks W w (l1 ++ l2) e =
      specAcks W w l1 e ++ specAcks W w l2 (specScan W w l1 e).2 := by
  induction l1 generalizing e with
  | nil => simp [specScan, specAcks]
  | cons a rest ih =>
    show specAcks W w (a :: (rest ++ l2)) e = _
    simp only [specScan, specAcks, ih]
    split <;> simp

theorem specAcks_sublist (W : TwoWire ι σ) (w : ι) (l : List Nat) (e : Bus ι σ) :
    (specAcks W w l e).Sublist l := by
  induction l generalizing e with
  | nil => simp [specAcks]
  | cons a rest ih =>
    simp only [specAcks]
    split
    · exact (ih _).cons₂ a
    · exact (ih _).cons a

theorem specAcks_range_succ (W : TwoWire ι σ) (w : ι) (a k : Nat) (e : Bus ι σ) :
    specAcks W w (List.range' a (k + 1)) e =
      if (probe W w a e).1 then a :: specAcks W w (List.range' (a + 1) k) (probe W w a e).2
      else specAcks W w (List.range' (a + 1) k) (probe W w a e).2 := by
  simp only [List.range', specAcks]

/-- One loop of `detect` with a non-null buffer, started at address `a` with `k` addresses
left up to `hi` and `n` entries already written: the acknowledging addresses are stored
from index `n` on, in order, up to index `max_count - 1`; every other cell is untouched. -/
theorem detectLoop_buffer (W : TwoWire ι σ) (w : ι) (max_count hi : Nat) (hhi : hi < 255) :
    ∀ (k fuel a n : Nat) (buf : Nat → Nat) (e : Bus ι σ),
      a + k = hi + 1 → k < fuel → n + k < 256 → n ≤ max_count →
      ∃ buf1 : Nat → Nat,
        (detectLoop W w max_count hi fuel a (n, some buf, e)).2.1 = some buf1 ∧
        (∀ i, n ≤ i → i < min max_count (n + (specAcks W w (List.range' a k) e).length) →
          (specAcks W w (List.range' a k) e)[i - n]? = some (buf1 i)) ∧
        (∀ i, i < n ∨ min max_count (n + (specAcks W w (List.range' a k) e).length) ≤ i →
          buf1 i = buf i) := by
  intro k
  induction k with
  | zero =>
    intro fuel a n buf e hak hf hn hmc
    obtain ⟨f, rfl⟩ : ∃ f, fuel = f + 1 := ⟨fuel - 1, by omega⟩
    have hc : ¬ (a ≤ hi ∧ n < max_count) := by omega
    have hd : detectLoop W w max_count hi (f + 1) a (n, some buf, e) = (n, some buf, e) := by
      simp only [detectLoop, if_neg hc]
    have hs : specAcks W w (List.range' a 0) e = [] := by
      simp only [List.range', specAcks]
    rw [hd, hs]
    refine ⟨buf, rfl, fun i h1 h2 => ?_, fun i _ => rfl⟩
    simp only [List.length_nil] at h2
    omega
  | succ k ih =>
    intro fuel a n buf e hak hf hn hmc
    obtain ⟨f, rfl⟩ : ∃ f, fuel = f + 1 := ⟨fuel - 1, by omega⟩
    have ha1 : (a + 1) % 256 = a + 1 := Nat.mod_eq_of_lt (by omega)
    have hn1 : (n + 1) % 256 = n + 1 := Nat.mod_eq_of_lt (by omega)
    rw [specAcks_range_succ]
    by_cases hlt : n < max_count
    · have hc : a ≤ hi ∧ n < max_count := ⟨by omega, hlt⟩
      by_cases hack : ((e.beginTransmission W w a).endTransmission W w).1 % 256 = 0
      · have hp : (probe W w a e).1 = true := by simp only [probe, hack, decide_True]
        have hd : detectLoop W w max_count hi (f + 1) a (n, some buf, e) =
            detectLoop W w max_count hi f (a + 1)
              (n + 1, some (fun i => if i = n then a else buf i), (probe W w a e).2) := by
          simp only [detectLoop, if_pos hc, if_pos hack, ha1, hn1, probe, Option.map_some']
        obtain ⟨buf1, hb, hA, hB⟩ := ih f (a + 1) (n + 1) (fun i => if i = n then a else buf i)
          (probe W w a e).2 (by omega) (by omega) (by omega) (by omega)
        rw [hd, hp, if_pos rfl]
        refine ⟨buf1, hb, fun i h1 h2 => ?_, fun i h => ?_⟩
        · simp only [List.length_cons] at h2
          by_cases hin : i = n
          · subst hin
            have hq := hB i (Or.inl (Nat.lt_succ_self i))
            simp only [if_true] at hq
            simp [hq]
          · have hi1 : i - n = (i - (n + 1)) + 1 := by omega
            rw [hi1, List.getElem?_cons_succ]
            exact hA i (by omega) (by omega)
        · simp only [List.length_cons] at h
          have hq := hB i (by omega)
          have hin : i ≠ n := by omega
          simpa [hin] using hq
      · have hp : (probe W w a e).1 = false := by simp only [probe, hack, decide_False]
        have hd : detectLoop W w max_count hi (f + 1) a (n, some buf, e) =
            detectLoop W w max_count hi f (a + 1) (n, some buf, (probe W w a e).2) := by
          simp only [detectLoop, if_pos hc, if_neg hack, ha1, probe]
        rw [hd, hp]
        simpa using ih f (a + 1) n buf (probe W w a e).2
          (by omega) (by omega) (by omega) (by omega)
    · have hc : ¬ (a ≤ hi ∧ n < max_count) := fun h => hlt h.2
      have hd : detectLoop W w max_count hi (f + 1) a (n, some buf, e) = (n, some buf, e) := by
        simp only [detectLoop, if_neg hc]
      rw [hd]
      refine ⟨buf, rfl, fun i h1 h2 => ?_, fun i _ => rfl⟩
      omega

/-- The two loops of `detect` together, with a non-null buffer: the return value, the
cells that hold the acknowledging addresses, and the cells left alone. -/
theorem detect_buffer_core (W : TwoWire ι σ) (w : ι) (buf : Nat → Nat) (max_count : Nat)
    (e : Bus ι σ) :
    ∃ buf2 : Nat → Nat,
      (detect W w (some buf) max_count e).2.1 = some buf2 ∧
      (detect W w (some buf) max_count e).1 =
        min (specAcks W w scanOrder e).length max_count ∧
      (∀ i, i < min (specAcks W w scanOrder e).length max_count →
        (specAcks W w scanOrder e)[i]? = some (buf2 i)) ∧
      (∀ i, min (specAcks W w scanOrder e).length max_count ≤ i → buf2 i = buf i) := by
  unfold detect scanOrder
  rw [specAcks_append]
  obtain ⟨h1, h2⟩ := detectLoop_count W w max_count 0x5F (by decide) 8 256 0x58 0 (some buf) e
    rfl (by decide) (by decide) (Nat.zero_le _)
  obtain ⟨buf1, hb1, hA1, hB1⟩ := detectLoop_buffer W w max_count 0x5F (by decide) 8 256 0x58 0
    buf e rfl (by decide) (by decide) (Nat.zero_le _)
  rw [specScan_count_eq] at h1
  have hl1 : (specAcks W w (List.range' 0x58 8) e).length ≤ 8 := by
    have h := (specAcks_sublist W w (List.range' 0x58 8) e).length_le
    rwa [List.length_range'] at h
  generalize detectLoop W w max_count 0x5F 256 0x58 (0, some buf, e) = s1 at h1 h2 hb1 ⊢
  obtain ⟨n1, out1, e1⟩ := s1
  simp only [Nat.zero_add] at h1 h2 hb1 hA1 hB1
  subst hb1
  obtain ⟨h3, -⟩ := detectLoop_count W w max_count 0x77 (by decide) 8 256 0x70 n1 (some buf1) e1
    rfl (by decide) (by omega) (by omega)
  obtain ⟨buf2, hb2, hA2, hB2⟩ := detectLoop_buffer W w max_count 0x77 (by decide) 8 256 0x70 n1
    buf1 e1 rfl (by decide) (by omega) (by omega)
  rw [specScan_count_eq] at h3
  refine ⟨buf2, hb2, ?_⟩
  rw [h3, List.length_append]
  by_cases hlt : n1 < max_count
  · have he1 : e1 = (specScan W w (List.range' 0x58 8) e).2 := h2 hlt
    have hn1 : n1 = (specAcks W w (List.range' 0x58 8) e).length := by omega
    rw [← he1]
    refine ⟨by omega, fun i hi => ?_, fun i hi => ?_⟩
    · by_cases hin : i < n1
      · rw [List.getElem?_append_left (by omega), hB2 i (Or.inl hin)]
        simpa using hA1 i (Nat.zero_le _) (by omega)
      · rw [List.getElem?_append_right (by omega), ← hn1]
        exact hA2 i (by omega) (by omega)
    · rw [hB2 i (Or.inr (by omega))]
      exact hB1 i (Or.inr (by omega))
  · have hn1 : n1 = max_count := by omega
    refine ⟨by omega, fun i hi => ?_, fun i hi => ?_⟩
    · rw [List.getElem?_append_left (by omega), hB2 i (by omega)]
      simpa using hA1 i (Nat.zero_le _) (by omega)
    · rw [hB2 i (by omega)]
      exact hB1 i (Or.inr (by omega))

theorem scanOrder_increasing : scanOrder.Pairwise (fun a b => a < b) := by
  decide

/-- C12: with a non-null buffer, `detect` returns `k = min(responders, max_count)`; cells
`0..k-1` hold the first `k` acknowledging addresses in scan order, hence strictly
increasing; every cell from `k` on, in particular every index `≥ max_count`, keeps its
previous content; and when only `0x72` acknowledges and `max_count ≥ 1` the result is 1
with `0x72` in cell 0. -/
theorem detect_buffer_entries (W : TwoWire ι σ) (w : ι) (buf : Nat → Nat) (max_count : Nat)
    (e : Bus ι σ) :
    ∃ buf2 : Nat → Nat,
      (detect W w (some buf) max_count e).2.1 = some buf2 ∧
      (detect W w (some buf) max_count e).1 =
        min (specAcks W w scanOrder e).length max_count ∧
      (∀ i, i < min (specAcks W w scanOrder e).length max_count →
        (specAcks W w scanOrder e)[i]? = some (buf2 i)) ∧
      (∀ i j, i < j → j < min (specAcks W w scanOrder e).length max_count →
        buf2 i < buf2 j) ∧
      (∀ i, min (specAcks W w scanOrder e).length max_count ≤ i → buf2 i = buf i) ∧
      (∀ i, max_count ≤ i → buf2 i = buf i) ∧
      (specAcks W w scanOrder e = [0x72] → 1 ≤ max_count →
        (detect W w (some buf) max_count e).1 = 1 ∧ buf2 0 = 0x72) := by
  obtain ⟨buf2, hb, hcount, hent, hrest⟩ := detect_buffer_core W w buf max_count e
  have hpw : (specAcks W w scanOrder e).Pairwise (fun a b => a < b) :=
    scanOrder_increasing.sublist (specAcks_sublist W w scanOrder e)
  refine ⟨buf2, hb, hcount, hent, fun i j hij hj => ?_, hrest,
    fun i hi => hrest i (by omega), fun hx hmc => ?_⟩
  · have hi := hent i (by omega)
    have hj2 := hent j hj
    rw [List.getElem?_eq_some] at hi hj2
    obtain ⟨hil, hie⟩ := hi
    obtain ⟨hjl, hje⟩ := hj2
    rw [← hie, ← hje]
    exact (List.pairwise_iff_getElem.mp hpw) i j hil hjl hij
  · rw [hx] at hcount hent
    have h0 := hent 0 (by simp; omega)
    simp only [List.getElem?_cons_zero, Option.some.injEq] at h0
    refine ⟨?_, h0.symm⟩
    rw [hcount]
    simp only [List.length_singleton]
    omega

/-- C12 on the simulated bus where only `0x72` acknowledges: `detect` with `max_count == 1`
returns 1, cell 0 holds `0x72`, and cell 1 keeps its previous content `0xEE`. -/
theorem detect_buffer_entries_witness :
    specAcks (simWire [0x72]) () scanOrder (simBus (fun _ => 0)) = [0x72] ∧
    (detect (simWire [0x72]) () (some (fun _ => 0xEE)) 1 (simBus (fun _ => 0))).1 = 1 ∧
    (detect (simWire [0x72]) () (some (fun _ => 0xEE)) 1 (simBus (fun _ => 0))).2.1.map
      (fun b => (b 0, b 1)) = some (0x72, 0xEE) := by
  refine ⟨by decide, ?_, by decide⟩
  obtain ⟨buf2, -, -, -, -, -, -, hex⟩ :=
    detect_buffer_entries (simWire [0x72]) () (fun _ => 0xEE) 1 (simBus (fun _ => 0))
  exact (hex (by decide) (by decide)).1

/-! ## The last control value -/

theorem readControl_obj (W : TwoWire ι σ) (out : Nat) (p : PCA9848 ι) (e : Bus ι σ) :
    (readControl W out p e).2.2.1 =
      { p with status_ := (readControl W out p e).2.2.1.status_ } := by
  unfold readControl
  cases p.wire_ with
  | none => rfl
  | some w => dsimp only; split <;> rfl

theorem readControl_lastCtrl (W : TwoWire ι σ) (out : Nat) (p : PCA9848 ι) (e : Bus ι σ) :
    (readControl W out p e).2.2.1.last_ctrl_ = p.last_ctrl_ := by
  rw [readControl_obj]

theorem readControl_wire (W : TwoWire ι σ) (out : Nat) (p : PCA9848 ι) (e : Bus ι σ) :
    (readControl W out p e).2.2.1.wire_ = p.wire_ := by
  rw [readControl_obj]

theorem getChannels_lastCtrl (W : TwoWire ι σ) (p : PCA9848 ι) (e : Bus ι σ) :
    (getChannels W p e).2.1.last_ctrl_ = p.last_ctrl_ := by
  unfold getChannels
  dsimp only
  split <;> exact readControl_lastCtrl W 0 p e

/-- A call of `writeControl` either leaves the last control value alone, or it was a
successful write transaction of `ctrl` and the last control value is `ctrl`. -/
theorem writeControl_cases (W : TwoWire ι σ) (ctrl : Nat) (p : PCA9848 ι) (e : Bus ι σ) :
    ((writeControl W ctrl p e).1.last_ctrl_ = p.last_ctrl_ ∧
      (writeControl W ctrl p e).1.status_ ≠ 0) ∨
    ∃ w, p.wire_ = some w ∧ GoodWrite W w p.addr_ ctrl e (writeControl W ctrl p e).2 ∧
      (writeControl W ctrl p e).1.last_ctrl_ = ctrl ∧
      (writeControl W ctrl p e).1.status_ = 0 := by
  unfold writeControl GoodWrite
  cases hw : p.wire_ with
  | none => left; simp
  | some w =>
    dsimp only
    by_cases hst :
        (((e.beginTransmission W w p.addr_).write W w ctrl).endTransmission W w).1 % 256 = 0
    · right
      exact ⟨w, rfl, by simp [hst]⟩
    · left
      simp [hst]

/-- The common shape of the four read-modify-write operations: read, give up with status 4
if the read failed, otherwise write `c`. -/
theorem rmw_cases (W : TwoWire ι σ) (c : Nat) (p : PCA9848 ι) (e : Bus ι σ)
    (x : PCA9848 ι × Bus ι σ)
    (hx : x = if !(readControl W 0 p e).1 then
        ({ (readControl W 0 p e).2.2.1 with status_ := 4 }, (readControl W 0 p e).2.2.2)
      else writeControl W c (readControl W 0 p e).2.2.1 (readControl W 0 p e).2.2.2) :
    x.1.last_ctrl_ = p.last_ctrl_ ∨
    ∃ w b, p.wire_ = some w ∧ GoodWrite W w p.addr_ b (readControl W 0 p e).2.2.2 x.2 ∧
      x.1.last_ctrl_ = b ∧ x.1.status_ = 0 := by
  subst hx
  cases hr : (readControl W 0 p e).1 with
  | false =>
    left
    simp only [Bool.not_false, if_true]
    exact readControl_lastCtrl W 0 p e
  | true =>
    simp only [Bool.not_true, Bool.false_eq_true, if_false]
    rcases writeControl_cases W c (readControl W 0 p e).2.2.1 (readControl W 0 p e).2.2.2 with
      h | ⟨w, hw, hg, hl, hs⟩
    · left
      rw [h.1]
      exact readControl_lastCtrl W 0 p e
    · right
      rw [readControl_wire] at hw
      rw [readControl_addr] at hg
      exact ⟨w, c, hw, hg, hl, hs⟩

/-- Every public call either leaves the last control value alone, or it performed a
successful write transaction of some byte `b` to the stored address (directly, or after
its read step) and the last control value is `b`, with status 0. -/
theorem step_lastCtrl_cases (W : TwoWire ι σ) (op : Op ι) (s : PCA9848 ι × Bus ι σ) :
    (step W op s).1.last_ctrl_ = s.1.last_ctrl_ ∨
    ∃ w b e1, s.1.wire_ = some w ∧ (e1 = s.2 ∨ e1 = (readControl W 0 s.1 s.2).2.2.2) ∧
      GoodWrite W w s.1.addr_ b e1 (step W op s).2 ∧
      (step W op s).1.last_ctrl_ = b ∧ (step W op s).1.status_ = 0 := by
  obtain ⟨p, e⟩ := s
  have direct : ∀ c, (writeControl W c p e).1.last_ctrl_ = p.last_ctrl_ ∨
      ∃ w b e1, p.wire_ = some w ∧ (e1 = e ∨ e1 = (readControl W 0 p e).2.2.2) ∧
        GoodWrite W w p.addr_ b e1 (writeControl W c p e).2 ∧
        (writeControl W c p e).1.last_ctrl_ = b ∧ (writeControl W c p e).1.status_ = 0 := by
    intro c
    rcases writeControl_cases W c p e with h | ⟨w, hw, hg, hl, hs⟩
    · exact Or.inl h.1
    · exact Or.inr ⟨w, c, e, hw, Or.inl rfl, hg, hl, hs⟩
  have viaRead : ∀ (c : Nat) (x : PCA9848 ι × Bus ι σ),
      (x = if !(readControl W 0 p e).1 then
        ({ (readControl W 0 p e).2.2.1 with status_ := 4 }, (readControl W 0 p e).2.2.2)
      else writeControl W c (readControl W 0 p e).2.2.1 (readControl W 0 p e).2.2.2) →
      x.1.last_ctrl_ = p.last_ctrl_ ∨
      ∃ w b e1, p.wire_ = some w ∧ (e1 = e ∨ e1 = (readControl W 0 p e).2.2.2) ∧
        GoodWrite W w p.addr_ b e1 x.2 ∧ x.1.last_ctrl_ = b ∧ x.1.status_ = 0 := by
    intro c x hx
    rcases rmw_cases W c p e x hx with h | ⟨w, b, hw, hg, hl, hs⟩
    · exact Or.inl h
    · exact Or.inr ⟨w, b, _, hw, Or.inr rfl, hg, hl, hs⟩
  cases op with
  | attach w addr => left; simp only [step, attach, setAddress]; split <;> rfl
  | setAddress addr => left; simp only [step, setAddress]; split <;> rfl
  | setAddressPins A0 A1 => left; cases A0 <;> cases A1 <;> rfl
  | detect w addrs_out max_count => left; rfl
  | enableChannel ch =>
    by_cases hch : ch > 7
    · left; simp [step, enableChannel, hch]
    · exact viaRead (((readControl W 0 p e).2.1 ||| ((1 <<< ch) % (UINT_MAX + 1))) % 256) _
        (by simp only [step, enableChannel, if_neg hch])
  | disableChannel ch =>
    by_cases hch : ch > 7
    · left; simp [step, disableChannel, hch]
    · exact viaRead
        (((readControl W 0 p e).2.1 &&& (UINT_MAX - (1 <<< ch) % (UINT_MAX + 1))) % 256) _
        (by simp only [step, disableChannel, if_neg hch])
  | setChannels mask => exact direct mask
  | enableChannels mask =>
    exact viaRead (((readControl W 0 p e).2.1 ||| mask) % 256) _
      (by simp only [step, enableChannels])
  | disableChannels mask =>
    exact viaRead (((readControl W 0 p e).2.1 &&& (UINT_MAX - mask)) % 256) _
      (by simp only [step, disableChannels])
  | disableAll => exact direct CHANNEL_DISABLED
  | enableAll => exact direct CHANNEL_ALL
  | readControl out => left; exact readControl_lastCtrl W out p e
  | getChannels => left; exact getChannels_lastCtrl W p e
  | isChannelEnabled ch =>
    left
    simp only [step, isChannelEnabled]
    split
    · rfl
    · exact getChannels_lastCtrl W p e
  | getEnabledChannelCount => left; exact getChannels_lastCtrl W p e
  | attached => left; rfl
  | address => left; rfl
  | getStatus => left; rfl
  | ok => left; rfl
  | lastCtrl => left; rfl
  | printStatus => left; rfl

theorem tracks_probe (W : TwoWire ι σ) (hw0 : σ) (w : ι) (a : Nat) (e : Bus ι σ) (g : Nat)
    (h : Tracks W hw0 e g) :
    Tracks W hw0 ((e.beginTransmission W w a).endTransmission W w).2 g := by
  unfold Tracks at h ⊢
  simp [Bus.endTransmission, Bus.beginTransmission, List.foldl_append, h, observe]

theorem tracks_detectLoop (W : TwoWire ι σ) (hw0 : σ) (w : ι) (max_count hi : Nat) (g : Nat) :
    ∀ (fuel a n : Nat) (out : Option (Nat → Nat)) (e : Bus ι σ), Tracks W hw0 e g →
      Tracks W hw0 (detectLoop W w max_count hi fuel a (n, out, e)).2.2 g := by
  intro fuel
  induction fuel with
  | zero => intro a n out e h; exact h
  | succ f ih =>
    intro a n out e h
    simp only [detectLoop]
    split
    · split
      · exact ih _ _ _ _ (tracks_probe W hw0 w a e g h)
      · exact ih _ _ _ _ (tracks_probe W hw0 w a e g h)
    · exact h

theorem tracks_readControl (W : TwoWire ι σ) (hw0 : σ) (out : Nat) (p : PCA9848 ι)
    (e : Bus ι σ) (g : Nat) (h : Tracks W hw0 e g) :
    Tracks W hw0 (readControl W out p e).2.2.2 g := by
  unfold readControl
  cases p.wire_ with
  | none => exact h
  | some w =>
    unfold Tracks at h ⊢
    dsimp only
    split
    · simp [Bus.requestFrom, List.foldl_append, h, observe]
    · simp [Bus.requestFrom, Bus.read, List.foldl_append, h, observe]

/-- Every call of `writeControl` keeps the last control value equal to what the observer
saw: a transaction that ended with status 0 makes its byte the new value. -/
theorem tracks_writeControl (W : TwoWire ι σ) (hw0 : σ) (c : Nat) (p : PCA9848 ι)
    (e : Bus ι σ) (h : Tracks W hw0 e p.last_ctrl_) :
    Tracks W hw0 (writeControl W c p e).2 (writeControl W c p e).1.last_ctrl_ := by
  unfold writeControl
  cases p.wire_ with
  | none => exact h
  | some w =>
    unfold Tracks at h ⊢
    by_cases hst :
        (W.endTransmission w (W.write w c (W.beginTransmission w p.addr_ e.hw))).1 % 256 = 0 <;>
      simp [Bus.endTransmission, Bus.write, Bus.beginTransmission, List.foldl_append, h,
        observe, hst]

theorem tracks_rmw (W : TwoWire ι σ) (hw0 : σ) (c : Nat) (p : PCA9848 ι) (e : Bus ι σ)
    (x : PCA9848 ι × Bus ι σ)
    (hx : x = if !(readControl W 0 p e).1 then
        ({ (readControl W 0 p e).2.2.1 with status_ := 4 }, (readControl W 0 p e).2.2.2)
      else writeControl W c (readControl W 0 p e).2.2.1 (readControl W 0 p e).2.2.2)
    (h : Tracks W hw0 e p.last_ctrl_) : Tracks W hw0 x.2 x.1.last_ctrl_ := by
  subst hx
  have hr := tracks_readControl W hw0 0 p e p.last_ctrl_ h
  rw [← readControl_lastCtrl W 0 p e] at hr
  cases (readControl W 0 p e).1 with
  | false => simpa using hr
  | true =>
    simp only [Bool.not_true, Bool.false_eq_true, if_false]
    exact tracks_writeControl W hw0 c _ _ hr

theorem tracks_getChannels (W : TwoWire ι σ) (hw0 : σ) (p : PCA9848 ι) (e : Bus ι σ)
    (h : Tracks W hw0 e p.last_ctrl_) :
    Tracks W hw0 (getChannels W p e).2.2 (getChannels W p e).2.1.last_ctrl_ := by
  rw [getChannels_lastCtrl]
  unfold getChannels
  dsimp only
  split <;> exact tracks_readControl W hw0 0 p e _ h

/-- One public call keeps the last control value equal to the byte of the most recent
successful write transaction the observer saw. -/
theorem tracks_step (W : TwoWire ι σ) (hw0 : σ) (op : Op ι) (s : PCA9848 ι × Bus ι σ)
    (h : Tracks W hw0 s.2 s.1.last_ctrl_) :
    Tracks W hw0 (step W op s).2 (step W op s).1.last_ctrl_ := by
  obtain ⟨p, e⟩ := s
  cases op with
  | attach w addr =>
    have : (attach w addr p).last_ctrl_ = p.last_ctrl_ := by
      simp only [attach, setAddress]; split <;> rfl
    simpa only [step, this] using h
  | setAddress addr =>
    have : (setAddress addr p).last_ctrl_ = p.last_ctrl_ := by
      simp only [setAddress]; split <;> rfl
    simpa only [step, this] using h
  | setAddressPins A0 A1 =>
    have : (setAddressPins A0 A1 p).last_ctrl_ = p.last_ctrl_ := by
      cases A0 <;> cases A1 <;> rfl
    simpa only [step, this] using h
  | detect w addrs_out max_count =>
    simp only [step, detect]
    exact tracks_detectLoop W hw0 w max_count 0x77 _ 256 0x70 _ _ _
      (tracks_detectLoop W hw0 w max_count 0x5F _ 256 0x58 0 addrs_out e h)
  | enableChannel ch =>
    by_cases hch : ch > 7
    · simpa only [step, enableChannel, if_pos hch] using h
    · exact tracks_rmw W hw0
        (((readControl W 0 p e).2.1 ||| ((1 <<< ch) % (UINT_MAX + 1))) % 256) p e _
        (by simp only [step, enableChannel, if_neg hch]) h
  | disableChannel ch =>
    by_cases hch : ch > 7
    · simpa only [step, disableChannel, if_pos hch] using h
    · exact tracks_rmw W hw0
        (((readControl W 0 p e).2.1 &&& (UINT_MAX - (1 <<< ch) % (UINT_MAX + 1))) % 256) p e _
        (by simp only [step, disableChannel, if_neg hch]) h
  | setChannels mask => exact tracks_writeControl W hw0 mask p e h
  | enableChannels mask =>
    exact tracks_rmw W hw0 (((readControl W 0 p e).2.1 ||| mask) % 256) p e _
      (by simp only [step, enableChannels]) h
  | disableChannels mask =>
    exact tracks_rmw W hw0 (((readControl W 0 p e).2.1 &&& (UINT_MAX - mask)) % 256) p e _
      (by simp only [step, disableChannels]) h
  | disableAll => exact tracks_writeControl W hw0 CHANNEL_DISABLED p e h
  | enableAll => exact tracks_writeControl W hw0 CHANNEL_ALL p e h
  | readControl out =>
    have hr := tracks_readControl W hw0 out p e p.last_ctrl_ h
    rw [← readControl_lastCtrl W out p e] at hr
    exact hr
  | getChannels => exact tracks_getChannels W hw0 p e h
  | isChannelEnabled ch =>
    by_cases hch : ch > 7
    · simpa only [step, isChannelEnabled, if_pos hch] using h
    · simp only [step, isChannelEnabled, if_neg hch]
      exact tracks_getChannels W hw0 p e h
  | getEnabledChannelCount => exact tracks_getChannels W hw0 p e h
  | attached => exact h
  | address => exact h
  | getStatus => exact h
  | ok => exact h
  | lastCtrl => exact h
  | printStatus => exact h

theorem tracks_run (W : TwoWire ι σ) (hw0 : σ) (ops : List (Op ι)) (s : PCA9848 ι × Bus ι σ)
    (h : Tracks W hw0 s.2 s.1.last_ctrl_) :
    Tracks W hw0 (run W ops s).2 (run W ops s).1.last_ctrl_ := by
  induction ops generalizing s with
  | nil => exact h
  | cons op rest ih => exact ih (step W op s) (tracks_step W hw0 op s h)

/-- After any sequence of public calls on a fresh controller, on a bus with no earlier
calls, the last control value is the byte of the most recent successful write transaction
in the bus history (`0x00` if there is none). -/
theorem run_lastCtrl_eq_lastGoodWrite (W : TwoWire ι σ) (ops : List (Op ι)) (e0 : Bus ι σ)
    (h0 : e0.trace = []) :
    (run W ops (new, e0)).1.last_ctrl_ = lastGoodWrite W e0.hw (run W ops (new, e0)).2.trace := by
  have hinit : Tracks W e0.hw e0 (new : PCA9848 ι).last_ctrl_ := by
    simp [Tracks, h0, new]
  have h := tracks_run W e0.hw ops ((new : PCA9848 ι), e0) hinit
  unfold Tracks at h
  unfold lastGoodWrite
  rw [h]

/-- C13 as stated fails: on the fixture whose device holds `0x5A` and answers one read
request, a freshly attached controller reads `0x5A` successfully; the next `getChannels()`
fails to read and returns `0x00`, the initial last control value, not the `0x5A` of the
most recent successful operation. -/
theorem getChannels_stale_read_counterexample :
    (getChannels fadingWire (attach () 0x70 new) { hw := 1, trace := [] }).1 = 0x5A ∧
    (getChannels fadingWire (attach () 0x70 new) { hw := 1, trace := [] }).2.1.ok = true ∧
    (readControl fadingWire 0
      (getChannels fadingWire (attach () 0x70 new) { hw := 1, trace := [] }).2.1
      (getChannels fadingWire (attach () 0x70 new) { hw := 1, trace := [] }).2.2).1 = false ∧
    (getChannels fadingWire
      (getChannels fadingWire (attach () 0x70 new) { hw := 1, trace := [] }).2.1
      (getChannels fadingWire (attach () 0x70 new) { hw := 1, trace := [] }).2.2).1 = 0x00 := by
  decide

/-- C13, amended: after any sequence of public calls on a fresh controller (on a bus with
no earlier calls), `lastCtrl()` is the byte of the most recent successful write transaction
in the bus history, `0x00` if there is none, and when the read of `getChannels()` fails
that byte is what it returns.  In any state a failing `getChannels()` returns `lastCtrl()`;
no read (`readControl`, `getChannels`), successful or not, changes `lastCtrl()`; and a
public call that changes it performed a successful write of the new value. -/
theorem getChannels_failure_returns_lastCtrl (W : TwoWire ι σ) (ops : List (Op ι))
    (e0 : Bus ι σ) (h0 : e0.trace = []) :
    (run W ops (new, e0)).1.lastCtrl =
      lastGoodWrite W e0.hw (run W ops (new, e0)).2.trace ∧
    (((run W ops (new, e0)).1.wire_ = none ∨
        ∃ w, (run W ops (new, e0)).1.wire_ = some w ∧
          (W.requestFrom w (run W ops (new, e0)).1.addr_ 1 (run W ops (new, e0)).2.hw).1 % 256
            ≠ 1) →
      (getChannels W (run W ops (new, e0)).1 (run W ops (new, e0)).2).1 =
        lastGoodWrite W e0.hw (run W ops (new, e0)).2.trace) ∧
    (∀ (p : PCA9848 ι) (e : Bus ι σ),
      (p.wire_ = none ∨
        ∃ w, p.wire_ = some w ∧ (W.requestFrom w p.addr_ 1 e.hw).1 % 256 ≠ 1) →
      (getChannels W p e).1 = p.lastCtrl) ∧
    (∀ (q : PCA9848 ι) (b : Bus ι σ) (out : Nat),
      (getChannels W q b).2.1.lastCtrl = q.lastCtrl ∧
      (readControl W out q b).2.2.1.lastCtrl = q.lastCtrl) ∧
    (∀ (op : Op ι) (s : PCA9848 ι × Bus ι σ),
      (step W op s).1.lastCtrl ≠ s.1.lastCtrl →
      ∃ w b e1, s.1.wire_ = some w ∧ GoodWrite W w s.1.address b e1 (step W op s).2 ∧
        (step W op s).1.lastCtrl = b) := by
  have hfailed : ∀ (p : PCA9848 ι) (e : Bus ι σ),
      (p.wire_ = none ∨
        ∃ w, p.wire_ = some w ∧ (W.requestFrom w p.addr_ 1 e.hw).1 % 256 ≠ 1) →
      (getChannels W p e).1 = p.lastCtrl := by
    intro p e hfail
    obtain ⟨h1, -, h3, -⟩ := readControl_failure W 0 p e hfail
    unfold getChannels
    simp [h1, h3, lastCtrl]
  have hlast := run_lastCtrl_eq_lastGoodWrite W ops e0 h0
  refine ⟨hlast, fun hfail => ?_, hfailed,
    fun q b out => ⟨getChannels_lastCtrl W q b, readControl_lastCtrl W out q b⟩,
    fun op s hne => ?_⟩
  · rw [hfailed _ _ hfail]
    exact hlast
  · rcases step_lastCtrl_cases W op s with h | ⟨w, b, e1, hw, -, hg, hl, -⟩
    · exact absurd h hne
    · exact ⟨w, b, e1, hw, hg, hl⟩

/-- C13 amended, on the fixture whose device holds `0x5A` and answers one read request:
after `attach`, `setChannels(0x0F)`, `setChannels(0x33)` and a `getChannels()` that reads
`0x5A`, the most recent successful write in the bus history is `0x33`, `lastCtrl()` is
`0x33`, and the next `getChannels()`, whose read fails, returns `0x33`. -/
theorem getChannels_failure_returns_lastCtrl_witness :
    (getChannels fadingWire
        (run fadingWire [Op.attach () 0x70, Op.setChannels 0x0F, Op.setChannels 0x33]
          (new, { hw := 1, trace := [] })).1
        (run fadingWire [Op.attach () 0x70, Op.setChannels 0x0F, Op.setChannels 0x33]
          (new, { hw := 1, trace := [] })).2).1 = 0x5A ∧
    lastGoodWrite fadingWire 1
      (run fadingWire
        [Op.attach () 0x70, Op.setChannels 0x0F, Op.setChannels 0x33, Op.getChannels]
        (new, { hw := 1, trace := [] })).2.trace = 0x33 ∧
    (run fadingWire
        [Op.attach () 0x70, Op.setChannels 0x0F, Op.setChannels 0x33, Op.getChannels]
        (new, { hw := 1, trace := [] })).1.lastCtrl = 0x33 ∧
    (readControl fadingWire 0
        (run fadingWire
          [Op.attach () 0x70, Op.setChannels 0x0F, Op.setChannels 0x33, Op.getChannels]
          (new, { hw := 1, trace := [] })).1
        (run fadingWire
          [Op.attach () 0x70, Op.setChannels 0x0F, Op.setChannels 0x33, Op.getChannels]
          (new, { hw := 1, trace := [] })).2).1 = false ∧
    (getChannels fadingWire
        (run fadingWire
          [Op.attach () 0x70, Op.setChannels 0x0F, Op.setChannels 0x33, Op.getChannels]
          (new, { hw := 1, trace := [] })).1
        (run fadingWire
          [Op.attach () 0x70, Op.setChannels 0x0F, Op.setChannels 0x33, Op.getChannels]
          (new, { hw := 1, trace := [] })).2).1 = 0x33 ∧
    (getChannels fadingWire
        (run fadingWire
          [Op.attach () 0x70, Op.setChannels 0x0F, Op.setChannels 0x33, Op.getChannels]
          (new, { hw := 1, trace := [] })).1
        (run fadingWire
          [Op.attach () 0x70, Op.setChannels 0x0F, Op.setChannels 0x33, Op.getChannels]
          (new, { hw := 1, trace := [] })).2).1 =
      lastGoodWrite fadingWire 1
        (run fadingWire
          [Op.attach () 0x70, Op.setChannels 0x0F, Op.setChannels 0x33, Op.getChannels]
          (new, { hw := 1, trace := [] })).2.trace :=
  ⟨by decide, by decide, by decide, by decide, by decide,
   (getChannels_failure_returns_lastCtrl fadingWire
      [Op.attach () 0x70, Op.setChannels 0x0F, Op.setChannels 0x33, Op.getChannels]
      { hw := 1, trace := [] } rfl).2.1 (Or.inr ⟨(), by decide, by decide⟩)⟩

/-- C14: the last control value starts at `0x00`; a public call changes it only by a
successful write transaction (end status 0) to the stored address, issued directly or
after the call's read step, and then it equals the byte written and `ok()` holds; a call
that ends with `ok()` false, every read, `attach`, both `setAddress` overloads and `detect`
leave it unchanged. -/
theorem lastCtrl_changes_only_on_successful_write (W : TwoWire ι σ) (op : Op ι)
    (s : PCA9848 ι × Bus ι σ) :
    (new : PCA9848 ι).lastCtrl = 0x00 ∧
    ((step W op s).1.lastCtrl = s.1.lastCtrl ∨
      ∃ w b e1, s.1.wire_ = some w ∧ (e1 = s.2 ∨ e1 = (readControl W 0 s.1 s.2).2.2.2) ∧
        GoodWrite W w s.1.address b e1 (step W op s).2 ∧
        (step W op s).1.lastCtrl = b ∧ (step W op s).1.ok = true) ∧
    ((step W op s).1.ok = false → (step W op s).1.lastCtrl = s.1.lastCtrl) ∧
    (∀ (out ch : Nat),
      (step W (Op.readControl out) s).1.lastCtrl = s.1.lastCtrl ∧
      (step W Op.getChannels s).1.lastCtrl = s.1.lastCtrl ∧
      (step W (Op.isChannelEnabled ch) s).1.lastCtrl = s.1.lastCtrl ∧
      (step W Op.getEnabledChannelCount s).1.lastCtrl = s.1.lastCtrl) ∧
    (∀ (w : ι) (addr max_count : Nat) (A0 A1 : Bool) (addrs_out : Option (Nat → Nat)),
      (step W (Op.attach w addr) s).1.lastCtrl = s.1.lastCtrl ∧
      (step W (Op.setAddress addr) s).1.lastCtrl = s.1.lastCtrl ∧
      (step W (Op.setAddressPins A0 A1) s).1.lastCtrl = s.1.lastCtrl ∧
      (step W (Op.detect w addrs_out max_count) s).1.lastCtrl = s.1.lastCtrl) := by
  have hread : ∀ (out ch : Nat),
      (step W (Op.readControl out) s).1.lastCtrl = s.1.lastCtrl ∧
      (step W Op.getChannels s).1.lastCtrl = s.1.lastCtrl ∧
      (step W (Op.isChannelEnabled ch) s).1.lastCtrl = s.1.lastCtrl ∧
      (step W Op.getEnabledChannelCount s).1.lastCtrl = s.1.lastCtrl := by
    intro out ch
    obtain ⟨p, e⟩ := s
    refine ⟨readControl_lastCtrl W out p e, getChannels_lastCtrl W p e, ?_,
      getChannels_lastCtrl W p e⟩
    simp only [step, isChannelEnabled, lastCtrl]
    split
    · rfl
    · exact getChannels_lastCtrl W p e
  have hset : ∀ (w : ι) (addr max_count : Nat) (A0 A1 : Bool)
      (addrs_out : Option (Nat → Nat)),
      (step W (Op.attach w addr) s).1.lastCtrl = s.1.lastCtrl ∧
      (step W (Op.setAddress addr) s).1.lastCtrl = s.1.lastCtrl ∧
      (step W (Op.setAddressPins A0 A1) s).1.lastCtrl = s.1.lastCtrl ∧
      (step W (Op.detect w addrs_out max_count) s).1.lastCtrl = s.1.lastCtrl := by
    intro w addr max_count A0 A1 addrs_out
    obtain ⟨p, e⟩ := s
    refine ⟨?_, ?_, ?_, rfl⟩
    · simp only [step, attach, setAddress, lastCtrl]; split <;> rfl
    · simp only [step, setAddress, lastCtrl]; split <;> rfl
    · cases A0 <;> cases A1 <;> rfl
  refine ⟨rfl, ?_, ?_, hread, hset⟩
  · rcases step_lastCtrl_cases W op s with h | ⟨w, b, e1, hw, he, hg, hl, hs⟩
    · exact Or.inl h
    · exact Or.inr ⟨w, b, e1, hw, he, hg, hl, by simp [ok, hs]⟩
  · intro hok
    rcases step_lastCtrl_cases W op s with h | ⟨w, b, e1, hw, he, hg, hl, hs⟩
    · exact h
    · simp [ok, hs] at hok

/-- C14 on the simulated bus: `setChannels(0xFF)` to a present device sets the last control
value to `0xFF`; the same call to an absent address (status 2) leaves it at `0x00`. -/
theorem lastCtrl_changes_only_on_successful_write_witness :
    (step (simWire [0x70]) (Op.setChannels 0xFF) (attach () 0x70 new, simBus (fun _ => 0))).1.lastCtrl
      = 0xFF ∧
    (step (simWire [0x70]) (Op.setChannels 0xFF) (attach () 0x71 new, simBus (fun _ => 0))).1.getStatus
      = 2 ∧
    (step (simWire [0x70]) (Op.setChannels 0xFF) (attach () 0x71 new, simBus (fun _ => 0))).1.lastCtrl
      = 0x00 := by
  refine ⟨by decide, by decide, ?_⟩
  exact (lastCtrl_changes_only_on_successful_write (simWire [0x70]) (Op.setChannels 0xFF)
    (attach () 0x71 new, simBus (fun _ => 0))).2.2.1 (by decide)

/-! ## The two bus primitives, construction and attachment -/

/-- C15: on an unattached controller `readControl` makes no bus call, fails, sets status 4
and leaves `out` alone.  On a controller attached to `w` it issues exactly one
`requestFrom(address, 1)`; it succeeds iff that request reports exactly one byte (as the
`uint8_t` the code stores); on success it then calls `read()` once, `out` is that byte and
status is 0; on failure nothing more is called, status is 4 and `out` keeps its value. -/
theorem readControl_contract (W : TwoWire ι σ) (out : Nat) (p : PCA9848 ι) (e : Bus ι σ) :
    (p.wire_ = none → readControl W out p e = (false, out, { p with status_ := 4 }, e)) ∧
    (∀ w, p.wire_ = some w →
      ((readControl W out p e).1 = true ↔ (W.requestFrom w p.address 1 e.hw).1 % 256 = 1) ∧
      (readControl W out p e).2.2.2.trace =
        e.trace ++ (w, WireCall.requestFrom p.address 1) ::
          (if (readControl W out p e).1 then [(w, WireCall.read)] else []) ∧
      ((readControl W out p e).1 = true →
        (readControl W out p e).2.1 =
          toUint8 (W.read w (W.requestFrom w p.address 1 e.hw).2).1 ∧
        (readControl W out p e).2.2.1.getStatus = 0) ∧
      ((readControl W out p e).1 = false →
        (readControl W out p e).2.2.1.getStatus = 4 ∧ (readControl W out p e).2.1 = out)) := by
  constructor
  · intro hw
    unfold readControl
    simp [hw]
  · intro w hw
    unfold readControl
    simp only [hw, address, getStatus]
    by_cases hn : (W.requestFrom w p.addr_ 1 e.hw).1 % 256 = 1
    · simp [Bus.requestFrom, Bus.read, hn]
    · simp [Bus.requestFrom, hn]

/-- C15 on the simulated bus: a present device holding `0x3C` is read successfully into
`out`; for an absent device the read fails and `out` keeps its previous value `0x99`. -/
theorem readControl_contract_witness :
    (readControl (simWire [0x70]) 0x99 (attach () 0x70 new) (simBus (fun _ => 0x3C))).1
      = true ∧
    (readControl (simWire [0x70]) 0x99 (attach () 0x70 new) (simBus (fun _ => 0x3C))).2.1
      = 0x3C ∧
    (readControl (simWire [0x70]) 0x99 (attach () 0x70 new)
        (simBus (fun _ => 0x3C))).2.2.1.getStatus = 0 ∧
    (readControl (simWire [0x70]) 0x99 (attach () 0x70 new)
        (simBus (fun _ => 0x3C))).2.2.2.trace =
      [((), WireCall.requestFrom 0x70 1), ((), WireCall.read)] ∧
    (readControl (simWire [0x70]) 0x99 (attach () 0x71 new) (simBus (fun _ => 0x3C))).1
      = false ∧
    (readControl (simWire [0x70]) 0x99 (attach () 0x71 new) (simBus (fun _ => 0x3C))).2.1
      = 0x99 ∧
    (readControl (simWire [0x70]) 0x99 (attach () 0x71 new)
        (simBus (fun _ => 0x3C))).2.2.2.trace = [((), WireCall.requestFrom 0x71 1)] := by
  refine ⟨by decide, by decide, by decide, by decide, by decide, ?_, by decide⟩
  exact (((readControl_contract (simWire [0x70]) 0x99 (attach () 0x71 new)
    (simBus (fun _ => 0x3C))).2 () (by decide)).2.2.2 (by decide)).2

/-- C16: `enableAll()` is `setChannels(0xFF)` and `disableAll()` is `setChannels(0x00)`.
On an unattached controller `setChannels(mask)` makes no bus call, sets status 4 and
leaves the last control value alone.  On a controller attached to `w` the bus calls are
exactly `beginTransmission(address)`, `write(mask)`, `endTransmission()`, with no read, and
the status afterwards is the code `endTransmission` returned (as a `uint8_t`), so `ok()`
holds iff that code is 0. -/
theorem setChannels_single_transaction (W : TwoWire ι σ) (mask : Nat) (p : PCA9848 ι)
    (e : Bus ι σ) :
    enableAll W p e = setChannels W 0xFF p e ∧
    disableAll W p e = setChannels W 0x00 p e ∧
    (p.wire_ = none →
      (setChannels W mask p e).2 = e ∧ (setChannels W mask p e).1.getStatus = 4 ∧
      (setChannels W mask p e).1.lastCtrl = p.lastCtrl) ∧
    (∀ w, p.wire_ = some w →
      (setChannels W mask p e).2.trace = e.trace ++
        [(w, WireCall.beginTransmission p.address), (w, WireCall.write mask),
         (w, WireCall.endTransmission)] ∧
      (setChannels W mask p e).1.getStatus =
        (W.endTransmission w (W.write w mask (W.beginTransmission w p.address e.hw))).1 % 256 ∧
      ((W.endTransmission w (W.write w mask (W.beginTransmission w p.address e.hw))).1 < 256 →
        (setChannels W mask p e).1.getStatus =
          (W.endTransmission w (W.write w mask (W.beginTransmission w p.address e.hw))).1) ∧
      ((setChannels W mask p e).1.ok = true ↔
        (W.endTransmission w (W.write w mask (W.beginTransmission w p.address e.hw))).1 % 256
          = 0)) := by
  refine ⟨rfl, rfl, fun hw => ?_, fun w hw => ?_⟩
  · simp [setChannels, writeControl, hw, getStatus, lastCtrl]
  · have hst : (setChannels W mask p e).1.status_ =
        (W.endTransmission w (W.write w mask (W.beginTransmission w p.addr_ e.hw))).1 % 256 := by
      simp only [setChannels, writeControl, hw, Bus.endTransmission, Bus.write,
        Bus.beginTransmission]
      split <;> rfl
    refine ⟨writeControl_trace W mask p e w hw, hst, fun hlt => ?_, ?_⟩
    · simp only [getStatus, hst, address]
      exact Nat.mod_eq_of_lt hlt
    · simp only [ok, hst, address, beq_iff_eq]

/-- C16 on the simulated bus: `enableAll()` to a present device is one transaction writing
`0xFF` with status 0; `disableAll()` to an absent address is one transaction writing
`0x00` with status 2. -/
theorem setChannels_single_transaction_witness :
    (enableAll (simWire [0x70]) (attach () 0x70 new) (simBus (fun _ => 0))).2.trace =
      [((), WireCall.beginTransmission 0x70), ((), WireCall.write 0xFF),
       ((), WireCall.endTransmission)] ∧
    (enableAll (simWire [0x70]) (attach () 0x70 new) (simBus (fun _ => 0))).1.getStatus = 0 ∧
    (disableAll (simWire [0x70]) (attach () 0x71 new) (simBus (fun _ => 0))).2.trace =
      [((), WireCall.beginTransmission 0x71), ((), WireCall.write 0x00),
       ((), WireCall.endTransmission)] ∧
    (disableAll (simWire [0x70]) (attach () 0x71 new) (simBus (fun _ => 0))).1.getStatus = 2 := by
  refine ⟨?_, by decide, by decide, by decide⟩
  rw [(setChannels_single_transaction (simWire [0x70]) 0xFF (attach () 0x70 new)
    (simBus (fun _ => 0))).1]
  exact ((setChannels_single_transaction (simWire [0x70]) 0xFF (attach () 0x70 new)
    (simBus (fun _ => 0))).2.2.2 () (by decide)).1

/-- C17: a freshly constructed controller is unattached, has address `0x70`, last control
value `0x00`, status 4 and `ok()` false.  `attach(w, addr)` touches no bus, binds `w`,
stores `addr` if it is valid and `0x70` otherwise, and leaves status and last control
value as they were (so still 4 and `0x00` on a fresh controller). -/
theorem new_and_attach (W : TwoWire ι σ) (w : ι) (addr : Nat) (p : PCA9848 ι) (e : Bus ι σ) :
    ((new : PCA9848 ι).wire_ = none ∧ (new : PCA9848 ι).attached = false ∧
      (new : PCA9848 ι).address = 0x70 ∧ (new : PCA9848 ι).lastCtrl = 0x00 ∧
      (new : PCA9848 ι).getStatus = 4 ∧ (new : PCA9848 ι).ok = false) ∧
    ((step W (Op.attach w addr) (p, e)).2 = e ∧
      (attach w addr p).wire_ = some w ∧ (attach w addr p).attached = true ∧
      (attach w addr p).address = (if isAddressValid addr then addr else 0x70) ∧
      (attach w addr p).getStatus = p.getStatus ∧
      (attach w addr p).lastCtrl = p.lastCtrl) ∧
    ((attach w addr (new : PCA9848 ι)).getStatus = 4 ∧
      (attach w addr (new : PCA9848 ι)).ok = false ∧
      (attach w addr (new : PCA9848 ι)).lastCtrl = 0x00) := by
  refine ⟨⟨rfl, rfl, rfl, rfl, rfl, rfl⟩, ?_, ?_⟩
  · unfold attach setAddress
    cases h : isAddressValid addr <;>
      simp [step, attach, setAddress, h, attached, address, getStatus, lastCtrl,
        I2C_ADDR_DEFAULT]
  · unfold attach setAddress
    cases h : isAddressValid addr <;> simp [new, getStatus, ok, lastCtrl]

/-! ## Queries derived from `getChannels` -/

/-- The C++ test `(ctrl & (1u << i)) != 0` is the test of bit `i`. -/
theorem and_shift_ne_zero_iff (m i : Nat) (hi : i ≤ 7) :
    (m &&& ((1 <<< i) % (UINT_MAX + 1))) ≠ 0 ↔ m.testBit i = true := by
  have hlt : 1 <<< i < UINT_MAX + 1 := by
    have := shiftLeft_one_lt i hi
    unfold UINT_MAX
    omega
  rw [Nat.mod_eq_of_lt hlt, Nat.one_shiftLeft, Nat.and_two_pow]
  cases m.testBit i with
  | false => simp
  | true => simp

/-- The counting loop of `getEnabledChannelCount`, started at bit `i` with `k` bits left
and `n` counted so far, adds the number of set bits among those `k`. -/
theorem countLoop_eq (ctrl : Nat) :
    ∀ (k fuel i n : Nat), i + k = 8 → k < fuel → n + k < 256 →
      countLoop ctrl fuel i n =
        n + ((List.range' i k).filter (fun j => ctrl.testBit j)).length := by
  intro k
  induction k with
  | zero =>
    intro fuel i n hik hf hn
    obtain ⟨f, rfl⟩ : ∃ f, fuel = f + 1 := ⟨fuel - 1, by omega⟩
    have hi : ¬ i < 8 := by omega
    simp [countLoop, hi]
  | succ k ih =>
    intro fuel i n hik hf hn
    obtain ⟨f, rfl⟩ : ∃ f, fuel = f + 1 := ⟨fuel - 1, by omega⟩
    have hi : i < 8 := by omega
    have hi1 : (i + 1) % 256 = i + 1 := Nat.mod_eq_of_lt (by omega)
    have hn1 : (n + 1) % 256 = n + 1 := Nat.mod_eq_of_lt (by omega)
    have hbit := and_shift_ne_zero_iff ctrl i (by omega)
    simp only [countLoop, if_pos hi, hi1, List.range', List.filter_cons]
    by_cases hb : ctrl.testBit i = true
    · rw [if_pos (hbit.mpr hb), hn1, if_pos hb, ih f (i + 1) (n + 1) (by omega) (by omega)
        (by omega), List.length_cons]
      omega
    · rw [if_neg (fun h => hb (hbit.mp h)), if_neg hb, ih f (i + 1) n (by omega) (by omega)
        (by omega)]

theorem popCount8_le (m : Nat) : popCount8 m ≤ 8 := by
  unfold popCount8
  have h := List.length_filter_le (fun i => m.testBit i) (List.range' 0 8)
  rwa [List.length_range'] at h

theorem getChannels_lt (W : TwoWire ι σ) (p : PCA9848 ι) (e : Bus ι σ)
    (h : p.last_ctrl_ < 256) : (getChannels W p e).1 < 256 := by
  unfold getChannels
  dsimp only
  cases hr : (readControl W 0 p e).1 with
  | false =>
    simp only [Bool.not_false, if_true]
    rw [readControl_lastCtrl]
    exact h
  | true =>
    simp only [Bool.not_true, Bool.false_eq_true, if_false]
    obtain ⟨w, -, -, hlt, -, -⟩ := readControl_success W 0 p e hr
    exact hlt

/-- C18: `getEnabledChannelCount()` is the number of set bits among bits 0..7 of the mask
that `getChannels()` returns from the same state, a value in 0..8, and it leaves the object
and the bus exactly as `getChannels()` does (the same single read attempt).  For an 8-bit
last control value the mask is below 256, so bits 0..7 are all its bits. -/
theorem getEnabledChannelCount_popcount (W : TwoWire ι σ) (p : PCA9848 ι) (e : Bus ι σ) :
    (getEnabledChannelCount W p e).1 = popCount8 (getChannels W p e).1 ∧
    (getEnabledChannelCount W p e).1 ≤ 8 ∧
    (getEnabledChannelCount W p e).2 = (getChannels W p e).2 ∧
    (p.lastCtrl < 256 →
      (getChannels W p e).1 < 256 ∧ ∀ i, 8 ≤ i → (getChannels W p e).1.testBit i = false) := by
  have hcount : (getEnabledChannelCount W p e).1 = popCount8 (getChannels W p e).1 := by
    unfold getEnabledChannelCount popCount8
    dsimp only
    rw [countLoop_eq _ 8 256 0 0 rfl (by decide) (by decide), Nat.zero_add]
  refine ⟨hcount, ?_, rfl, fun h => ?_⟩
  · rw [hcount]
    exact popCount8_le _
  · have hlt := getChannels_lt W p e h
    refine ⟨hlt, fun i hi => Nat.testBit_lt_two_pow ?_⟩
    calc (getChannels W p e).1 < 2 ^ 8 := hlt
      _ ≤ 2 ^ i := Nat.pow_le_pow_right (by decide) hi

/-- C18 on the simulated bus: device masks `0xFF`, `0x00` and `0xA5` give counts 8, 0 and 4;
with an absent device the count is that of the last control value `0x00`. -/
theorem getEnabledChannelCount_popcount_witness :
    (getEnabledChannelCount (simWire [0x70]) (attach () 0x70 new) (simBus (fun _ => 0xFF))).1
      = 8 ∧
    (getEnabledChannelCount (simWire [0x70]) (attach () 0x70 new) (simBus (fun _ => 0x00))).1
      = 0 ∧
    (getEnabledChannelCount (simWire [0x70]) (attach () 0x70 new) (simBus (fun _ => 0xA5))).1
      = 4 ∧
    popCount8 0xA5 = 4 ∧
    (getEnabledChannelCount (simWire [0x70]) (attach () 0x71 new) (simBus (fun _ => 0xA5))).1
      = 0 := by
  refine ⟨by decide, by decide, ?_, by decide, by decide⟩
  rw [(getEnabledChannelCount_popcount (simWire [0x70]) (attach () 0x70 new)
    (simBus (fun _ => 0xA5))).1]
  decide

/-- C19: for `ch > 7`, `isChannelEnabled(ch)` is false and touches neither the object nor
the bus; for `ch ≤ 7` it is bit `ch` of the mask that `getChannels()` returns from the same
state, and it leaves the object and the bus as `getChannels()` does; that mask is
`lastCtrl()` when the read fails. -/
theorem isChannelEnabled_bit (W : TwoWire ι σ) (ch : Nat) (p : PCA9848 ι) (e : Bus ι σ) :
    (ch > 7 → isChannelEnabled W ch p e = (false, p, e)) ∧
    (ch ≤ 7 →
      (isChannelEnabled W ch p e).1 = (getChannels W p e).1.testBit ch ∧
      (isChannelEnabled W ch p e).2 = (getChannels W p e).2) ∧
    ((p.wire_ = none ∨ ∃ w, p.wire_ = some w ∧ (W.requestFrom w p.addr_ 1 e.hw).1 % 256 ≠ 1) →
      (getChannels W p e).1 = p.lastCtrl) := by
  refine ⟨fun h => ?_, fun h => ?_, fun hfail => ?_⟩
  · simp [isChannelEnabled, h]
  · have h7 : ¬ ch > 7 := by omega
    simp only [isChannelEnabled, if_neg h7, and_true]
    have hbit := and_shift_ne_zero_iff (getChannels W p e).1 ch h
    cases hb : (getChannels W p e).1.testBit ch with
    | false =>
      have : ¬ ((getChannels W p e).1 &&& ((1 <<< ch) % (UINT_MAX + 1))) ≠ 0 := by
        rw [hbit, hb]; simp
      simpa using this
    | true =>
      have : ((getChannels W p e).1 &&& ((1 <<< ch) % (UINT_MAX + 1))) ≠ 0 := by
        rw [hbit, hb]
      simpa using this
  · obtain ⟨h1, -, h3, -⟩ := readControl_failure W 0 p e hfail
    unfold getChannels
    simp [h1, h3, lastCtrl]

/-- C19 on the simulated bus with the device at mask `0x09`: channels 0 and 3 are enabled,
channel 1 is not, channel 8 is out of range; with an absent device channel 0 reads as bit 0
of the last control value `0x00`. -/
theorem isChannelEnabled_bit_witness :
    (isChannelEnabled (simWire [0x70]) 0 (attach () 0x70 new) (simBus (fun _ => 0x09))).1
      = true ∧
    (isChannelEnabled (simWire [0x70]) 3 (attach () 0x70 new) (simBus (fun _ => 0x09))).1
      = true ∧
    (isChannelEnabled (simWire [0x70]) 1 (attach () 0x70 new) (simBus (fun _ => 0x09))).1
      = false ∧
    (isChannelEnabled (simWire [0x70]) 0 (attach () 0x71 new) (simBus (fun _ => 0x09))).1
      = false ∧
    isChannelEnabled (simWire [0x70]) 8 (attach () 0x70 new) (simBus (fun _ => 0x09)) =
      (false, attach () 0x70 new, simBus (fun _ => 0x09)) := by
  refine ⟨by decide, by decide, by decide, by decide, ?_⟩
  exact (isChannelEnabled_bit (simWire [0x70]) 8 (attach () 0x70 new)
    (simBus (fun _ => 0x09))).1 (by decide)

/-- C20: for `ch ≤ 7`, `enableChannel(ch)` and `enableChannels(1 << ch)` give the same
object and the same bus (state and call trace), and so do `disableChannel(ch)` and
`disableChannels(1 << ch)`; the 32-bit `~(1u << ch)` truncated to 8 bits is the 8-bit
complement of `1 << ch`. -/
theorem enableChannel_eq_enableChannels (W : TwoWire ι σ) (ch : Nat) (p : PCA9848 ι)
    (e : Bus ι σ) (hch : ch ≤ 7) :
    enableChannel W ch p e = enableChannels W (1 <<< ch) p e ∧
    disableChannel W ch p e = disableChannels W (1 <<< ch) p e ∧
    (UINT_MAX - (1 <<< ch) % (UINT_MAX + 1)) % 256 = 255 - (1 <<< ch) := by
  have h7 : ¬ ch > 7 := by omega
  have hlt : 1 <<< ch < UINT_MAX + 1 := by
    have := shiftLeft_one_lt ch hch
    unfold UINT_MAX
    omega
  have hmod : (1 <<< ch) % (UINT_MAX + 1) = 1 <<< ch := Nat.mod_eq_of_lt hlt
  refine ⟨?_, ?_, ?_⟩
  · simp only [enableChannel, enableChannels, if_neg h7, hmod]
  · simp only [disableChannel, disableChannels, if_neg h7, hmod]
  · rw [hmod]
    have h256 := shiftLeft_one_lt ch hch
    unfold UINT_MAX
    omega

/-- C20 at `ch = 3` on the simulated bus with the device at mask `0x01`: both forms write
`0x09`. -/
theorem enableChannel_eq_enableChannels_witness :
    3 ≤ 7 ∧
    (enableChannel (simWire [0x70]) 3 (attach () 0x70 new) (simBus (fun _ => 0x01)) =
        enableChannels (simWire [0x70]) (1 <<< 3) (attach () 0x70 new)
          (simBus (fun _ => 0x01)) ∧
      disableChannel (simWire [0x70]) 3 (attach () 0x70 new) (simBus (fun _ => 0x01)) =
        disableChannels (simWire [0x70]) (1 <<< 3) (attach () 0x70 new)
          (simBus (fun _ => 0x01)) ∧
      (UINT_MAX - (1 <<< 3) % (UINT_MAX + 1)) % 256 = 255 - (1 <<< 3)) ∧
    (enableChannels (simWire [0x70]) (1 <<< 3) (attach () 0x70 new)
        (simBus (fun _ => 0x01))).2.trace =
      [((), WireCall.requestFrom 0x70 1), ((), WireCall.read),
       ((), WireCall.beginTransmission 0x70), ((), WireCall.write 0x09),
       ((), WireCall.endTransmission)] :=
  ⟨by decide,
   enableChannel_eq_enableChannels (simWire [0x70]) 3 (attach () 0x70 new)
     (simBus (fun _ => 0x01)) (by decide),
   by decide⟩

end PCA9848
